import Mathlib

/-! openlan-go: framing codec, transport adapters, endpoint session, hook chain

A shallow embedding of `libol/message.go`, `libol/tcp_client.go` and
`vswitch/vswitch.go`.

Conventions of the embedding

* a Go `[]byte` or `string` is a `List Byte`; a nil slice is `[]`;
* a Go `error` result is an `Option Err` (`none` is `nil`);
* a Go function that can stop with a run-time panic returns an `Option`
  (`none` is the panic);
* a connection is explicit state: the bytes still travelling towards this end,
  the bytes written so far, and one script per direction which fixes, call by
  call, how many bytes the next `Read` or `Write` moves or that it fails.
-/

namespace Openlan

/-! ## Bytes and Go slices -/

abbrev Byte := Fin 256

/-- Go `make([]byte, n)`: `n` zero bytes. -/
def zeros (n : Nat) : List Byte := List.replicate n 0

/-- Go `copy(dst[off:], src)`: overwrites `dst` from index `off` with as many bytes of
`src` as fit, and leaves the length of `dst` alone. -/
def copyAt (dst : List Byte) (off : Nat) (src : List Byte) : List Byte :=
  dst.take off ++ src.take (dst.length - off) ++ dst.drop (off + src.length)

/-- Go `copy(dst, src)`. -/
def copy (dst src : List Byte) : List Byte := copyAt dst 0 src

/-- Go `s[lo:hi]` on a slice whose capacity is its length: panics unless
`lo ≤ hi ≤ len(s)`. -/
def slice (s : List Byte) (lo hi : Nat) : Option (List Byte) :=
  if lo ≤ hi ∧ hi ≤ s.length then some ((s.take hi).drop lo) else none

/-- Go `s[lo:]`: panics unless `lo ≤ len(s)`. -/
def sliceFrom (s : List Byte) (lo : Nat) : Option (List Byte) :=
  if lo ≤ s.length then some (s.drop lo) else none

/-- Go `binary.BigEndian.PutUint16(b, uint16(n))` as the two bytes written. -/
def putUint16 (n : Nat) : List Byte :=
  [⟨(n % 65536) / 256, by omega⟩, ⟨n % 256, by omega⟩]

/-- Go `binary.BigEndian.Uint16(b)` on the two bytes `hi`, `lo`. -/
def uint16 (hi lo : Byte) : Nat := hi.val * 256 + lo.val

/-! ## message.go: constants and the control classifier -/

def MAXBUF : Nat := 4096

def HSIZE : Nat := 4

def GetHeaderLen : Nat := HSIZE

def MAGIC : List Byte := [0xff, 0xff]

def GetMagic : List Byte := MAGIC

/-- Modelled from the spec: the package variable `ZEROED` is declared outside the given
sources; the spec fixes `ZEROED[:6]`, the control sentinel, as six zero bytes. -/
def ZEROED : List Byte := zeros 6

/-- `IsControl` of message.go. -/
def IsControl (data : List Byte) : Bool :=
  if data.length < 6 then false
  else if data.take 6 = ZEROED.take 6 then true
  else false

/-! ## message.go: frame and control messages -/

structure FrameMessage where
  control : Bool
  action : List Byte
  params : List Byte
  frame : List Byte
  rawData : List Byte
  deriving DecidableEq

/-- `FrameMessage.Decode`: the message after decoding together with the returned flag.
`none` is the slice-bounds panic of `m.rawData[6:11]` or `m.rawData[12:]`
(for a control payload Go evaluates both, and `rawData[12:]` needs `12 ≤ len`). -/
def FrameMessage.Decode (m : FrameMessage) : Option (FrameMessage × Bool) :=
  let m := { m with control := IsControl m.rawData }
  if m.control then
    match slice m.rawData 6 11 with
    | none => none
    | some a =>
      let m := { m with action := a }
      match sliceFrom m.rawData 12 with
      | none => none
      | some p =>
        let m := { m with params := p }
        some (m, m.control)
  else
    let m := { m with frame := m.rawData }
    some (m, m.control)

/-- `NewFrameMessage` of message.go. -/
def NewFrameMessage (data : List Byte) : Option FrameMessage :=
  let m : FrameMessage :=
    { control := false, action := [], params := [], frame := [], rawData := data }
  match m.Decode with
  | none => none
  | some (m, _) => some m

def FrameMessage.IsControl (m : FrameMessage) : Bool := m.control

def FrameMessage.Data (m : FrameMessage) : List Byte := m.frame

def FrameMessage.CmdAndParams (m : FrameMessage) : List Byte × List Byte :=
  (m.action, m.params)

structure ControlMessage where
  control : Bool
  operator : List Byte
  action : List Byte
  params : List Byte
  deriving DecidableEq

/-- `NewControlMessage(action, opr, body)`. -/
def NewControlMessage (action opr body : List Byte) : ControlMessage :=
  { control := true, action := action, params := body, operator := opr }

/-- `ControlMessage.Encode`: `append(ZEROED[:6], action[:4] + operator[:2] + params)`;
`none` is the panic of a slice expression on a too short string. -/
def ControlMessage.Encode (c : ControlMessage) : Option (List Byte) :=
  match slice c.action 0 4 with
  | none => none
  | some a =>
    match slice c.operator 0 2 with
    | none => none
    | some o =>
      let p := a ++ o ++ c.params
      match slice ZEROED 0 6 with
      | none => none
      | some z => some (z ++ p)

/-! ## Connections -/

inductive Err where
  | connNil
  | wrongMagic
  | wrongSize (size : Nat)
  | smallFrame
  | notOkay
  | io
  | eof
  | dial
  | alreadyRunning
  | app (code : Nat)
  deriving DecidableEq, Repr

/-- A reliable byte-stream connection seen from one end.  `rx` are the bytes still to be
delivered to this end, `tx` the bytes this end has written.  Each `Read` (`Write`) takes
the next entry of `rscript` (`wscript`): `none` makes the call fail, `some k` makes it move
`k` bytes, but at least one and at most what the buffer and the stream allow.  An exhausted
script moves everything at once. -/
structure Conn where
  raddr : String
  rx : List Byte
  tx : List Byte
  rscript : List (Option Nat)
  wscript : List (Option Nat)
  deriving DecidableEq

/-- Next entry of a script and the rest of the script. -/
def popEv (s : List (Option Nat)) (all : Nat) : Option Nat × List (Option Nat) :=
  match s with
  | [] => (some all, [])
  | e :: r => (e, r)

/-- `conn.Read(tmp)`: the buffer after the call, the count and the error. -/
def Conn.Read (c : Conn) (tmp : List Byte) : List Byte × Nat × Option Err × Conn :=
  if tmp.length = 0 then (tmp, 0, none, c)
  else
    match popEv c.rscript tmp.length with
    | (none, rs) => (tmp, 0, some Err.io, { c with rscript := rs })
    | (some k, rs) =>
      if c.rx.length = 0 then (tmp, 0, some Err.eof, { c with rscript := rs })
      else
        let n := min (max k 1) (min tmp.length c.rx.length)
        (copy tmp (c.rx.take n), n, none, { c with rx := c.rx.drop n, rscript := rs })

/-- `conn.Write(b)`: the count and the error. -/
def Conn.Write (c : Conn) (b : List Byte) : Nat × Option Err × Conn :=
  match popEv c.wscript b.length with
  | (none, ws) => (0, some Err.io, { c with wscript := ws })
  | (some k, ws) =>
    let n := min (max k 1) b.length
    (n, none, { c with tx := c.tx ++ b.take n, wscript := ws })

/-- `conn.SetReadDeadline(t)`: deadlines are wall-clock time, which the model does not
have; setting one succeeds, and a connection that fails does so at `Read` or `Write`. -/
def Conn.SetReadDeadline (_c : Conn) : Option Err := none

/-- `conn.SetWriteDeadline(t)`, as `SetReadDeadline`. -/
def Conn.SetWriteDeadline (_c : Conn) : Option Err := none

/-- The `kcp.BlockCrypt` interface, each method as the function from the source bytes to
the bytes it stores in the destination. -/
structure BlockCrypt where
  Encrypt : List Byte → List Byte
  Decrypt : List Byte → List Byte

/-- `block.Encrypt(data, data)`: the slice after encryption in place. -/
def BlockCrypt.encryptInPlace (b : BlockCrypt) (data : List Byte) : List Byte :=
  copy data (b.Encrypt data)

/-- `block.Decrypt(data, data)`: the slice after decryption in place. -/
def BlockCrypt.decryptInPlace (b : BlockCrypt) (data : List Byte) : List Byte :=
  copy data (b.Decrypt data)

/-- Go `int` arithmetic on a 64-bit platform: the mathematical result of one operation,
wrapped to the 64-bit two's complement range. -/
def wrapInt (x : Int) : Int :=
  (x + 9223372036854775808) % 18446744073709551616 - 9223372036854775808

/-- The largest length `make([]byte, n)` accepts on a 64-bit platform, `maxAlloc` of the Go
runtime (2^48 bytes). -/
def maxAlloc : Int := 281474976710656

/-- Go `make([]byte, n)` for an `int` length: panics ("len out of range") on a negative
length and on a length above `maxAlloc`.  An allocation within that limit is taken to
succeed. -/
def makeBytes (n : Int) : Option (List Byte) :=
  if n < 0 ∨ n > maxAlloc then none else some (zeros n.toNat)

/-! ## message.go: the stream transport -/

structure StreamMessage where
  timeout : Nat
  block : Option BlockCrypt

/-- `StreamMessage.write`. -/
def StreamMessage.write (s : StreamMessage) (conn : Conn) (tmp : List Byte) :
    Nat × Option Err × Conn :=
  match (if s.timeout ≠ 0 then conn.SetWriteDeadline else none) with
  | some err => (0, some err, conn)
  | none =>
    match conn.Write tmp with
    | (_, some err, conn) => (0, some err, conn)
    | (n, none, conn) => (n, none, conn)

/-- The `for left > 0` loop of `StreamMessage.writeFull`; `fuel` bounds the number of
iterations and `none` means that the loop has not finished within it. -/
def StreamMessage.writeLoop (s : StreamMessage) (buf : List Byte) (size : Nat) :
    Nat → Nat → Nat → Conn → Option (Option Err × Conn)
  | 0, _, left, conn => if left > 0 then none else some (none, conn)
  | fuel + 1, offset, left, conn =>
    if left > 0 then
      let tmp := buf.drop offset
      match s.write conn tmp with
      | (_, some err, conn) => some (some err, conn)
      | (n, none, conn) => StreamMessage.writeLoop s buf size fuel (offset + n) (size - (offset + n)) conn
    else some (none, conn)

/-- `StreamMessage.writeFull`; every iteration writes at least one byte, so `len(buf)`
iterations are enough. -/
def StreamMessage.writeFull (s : StreamMessage) (conn : Option Conn) (buf : List Byte) :
    Option (Option Err × Option Conn) :=
  match conn with
  | none => some (some Err.connNil, none)
  | some conn =>
    let offset := 0
    let size := buf.length
    let left := size - offset
    match s.writeLoop buf size left offset left conn with
    | none => none
    | some (err, conn) => some (err, some conn)

/-- The frame buffer built by `Send` before it is written: the header, then `data`. -/
def frameBuf (size : Nat) (data : List Byte) : List Byte :=
  let buf := zeros (HSIZE + size)
  let buf := copyAt buf 0 (MAGIC.take 2)
  let buf := copyAt buf 2 ((putUint16 size).take 2)
  copyAt buf HSIZE data

/-- `StreamMessage.Send`: the returned count and error, the caller's `data` after the call
(it is encrypted in place) and the connection. -/
def StreamMessage.Send (s : StreamMessage) (conn : Option Conn) (data : List Byte) :
    Option (Int × Option Err × List Byte × Option Conn) :=
  let size := data.length
  let data := match s.block with
    | some b => b.encryptInPlace data
    | none => data
  let buf := frameBuf size data
  match s.writeFull conn buf with
  | none => none
  | some (some err, conn) => some (0, some err, data, conn)
  | some (none, conn) => some (size, none, data, conn)

/-- `StreamMessage.read`. -/
def StreamMessage.read (s : StreamMessage) (conn : Conn) (tmp : List Byte) :
    List Byte × Nat × Option Err × Conn :=
  match (if s.timeout ≠ 0 then conn.SetReadDeadline else none) with
  | some err => (tmp, 0, some err, conn)
  | none =>
    match conn.Read tmp with
    | (tmp, _, some err, conn) => (tmp, 0, some err, conn)
    | (tmp, n, none, conn) => (tmp, n, none, conn)

/-- The `for left > 0` loop of `StreamMessage.readFull`; `fuel` bounds the number of
iterations and `none` means that the loop has not finished within it. -/
def StreamMessage.readLoop (s : StreamMessage) :
    Nat → List Byte → Nat → Nat → Conn → Option (Option Err × List Byte × Conn)
  | 0, buf, _, left, conn => if left > 0 then none else some (none, buf, conn)
  | fuel + 1, buf, offset, left, conn =>
    if left > 0 then
      let tmp := zeros left
      match s.read conn tmp with
      | (_, _, some err, conn) => some (some err, buf, conn)
      | (tmp, n, none, conn) =>
        StreamMessage.readLoop s fuel (copyAt buf offset tmp) (offset + n) (left - n) conn
    else some (none, buf, conn)

/-- `StreamMessage.readFull`: the error, the buffer after the call and the connection;
every iteration reads at least one byte or fails, so `len(buf)` iterations are enough. -/
def StreamMessage.readFull (s : StreamMessage) (conn : Option Conn) (buf : List Byte) :
    Option (Option Err × List Byte × Option Conn) :=
  match conn with
  | none => some (some Err.connNil, buf, none)
  | some conn =>
    let offset := 0
    let left := buf.length
    match s.readLoop left buf offset left conn with
    | none => none
    | some (err, buf, conn) => some (err, buf, some conn)

/-- `StreamMessage.Receive`: the returned count and error, the caller's `data` after the
call and the connection.  `max` and `min` are Go `int`s and `hl + max` is `int` arithmetic.
`none` is a panic: `make` with a length that is negative or above `maxAlloc`, or a slice
expression out of range. -/
def StreamMessage.Receive (s : StreamMessage) (conn : Option Conn) (data : List Byte)
    (max min : Int) : Option (Int × Option Err × List Byte × Option Conn) :=
  let hl := GetHeaderLen
  match makeBytes (wrapInt (hl + max)) with
  | none => none
  | some buf =>
    match slice buf 0 hl with
    | none => none
    | some h =>
      match s.readFull conn h with
      | none => none
      | some (some err, _, conn) => some (0, some err, data, conn)
      | some (none, h, conn) =>
        let buf := copyAt buf 0 h
        let magic := GetMagic
        if h.take 2 ≠ magic then some (0, some Err.wrongMagic, data, conn)
        else
          let size := uint16 (h.getD 2 0) (h.getD 3 0)
          if (size : Int) > max ∨ (size : Int) < min then
            some (0, some (Err.wrongSize size), data, conn)
          else
            match slice buf hl (hl + size) with
            | none => none
            | some tmp =>
              match s.readFull conn tmp with
              | none => none
              | some (some err, _, conn) => some (0, some err, data, conn)
              | some (none, tmp, conn) =>
                let tmp := match s.block with
                  | some b => b.decryptInPlace tmp
                  | none => tmp
                some (tmp.length, none, copy data tmp, conn)

/-! ## Predicates used in the statements -/

/-- No entry of the script makes a call fail. -/
def noFail (s : List (Option Nat)) : Bool := s.all Option.isSome

/-! ## message.go: the datagram transport -/

/-- A connection that keeps message boundaries (UDP, KCP) seen from one end: `rx` are the
datagrams waiting to be read, `tx` the datagrams written, and the scripts say, call by
call, whether the next `Read` or `Write` fails. -/
structure PacketConn where
  raddr : String
  rx : List (List Byte)
  tx : List (List Byte)
  rscript : List Bool
  wscript : List Bool
  deriving DecidableEq

/-- Next entry of a failure script and the rest of the script. -/
def popFail (s : List Bool) : Bool × List Bool :=
  match s with
  | [] => (false, [])
  | e :: r => (e, r)

/-- `conn.Read(buf)` on a datagram connection: one datagram, cut to the buffer. -/
def PacketConn.Read (c : PacketConn) (buf : List Byte) :
    List Byte × Nat × Option Err × PacketConn :=
  match popFail c.rscript with
  | (true, rs) => (buf, 0, some Err.io, { c with rscript := rs })
  | (false, rs) =>
    match c.rx with
    | [] => (buf, 0, some Err.eof, { c with rscript := rs })
    | d :: ds => (copy buf d, min buf.length d.length, none, { c with rx := ds, rscript := rs })

/-- `conn.Write(buf)` on a datagram connection: one datagram. -/
def PacketConn.Write (c : PacketConn) (buf : List Byte) : Nat × Option Err × PacketConn :=
  match popFail c.wscript with
  | (true, ws) => (0, some Err.io, { c with wscript := ws })
  | (false, ws) => (buf.length, none, { c with tx := c.tx ++ [buf], wscript := ws })

/-- `conn.SetReadDeadline(t)` on a datagram connection. -/
def PacketConn.SetReadDeadline (_c : PacketConn) : Option Err := none

/-- `conn.SetWriteDeadline(t)` on a datagram connection. -/
def PacketConn.SetWriteDeadline (_c : PacketConn) : Option Err := none

structure DataGramMessage where
  timeout : Nat
  block : Option BlockCrypt

/-- `DataGramMessage.Send`; `none` is the nil dereference of `conn.RemoteAddr()`. -/
def DataGramMessage.Send (s : DataGramMessage) (conn : Option PacketConn) (data : List Byte) :
    Option (Int × Option Err × List Byte × Option PacketConn) :=
  let size := data.length
  let data := match s.block with
    | some b => b.encryptInPlace data
    | none => data
  let buf := frameBuf size data
  match conn with
  | none => none
  | some conn =>
    match (if s.timeout ≠ 0 then conn.SetWriteDeadline else none) with
    | some err => some (0, some err, data, some conn)
    | none =>
      match conn.Write buf with
      | (_, some err, conn) => some (0, some err, data, some conn)
      | (_, none, conn) => some (size, none, data, some conn)

/-- `DataGramMessage.Receive`; `max` and `min` are Go `int`s and `hl + max` is `int`
arithmetic.  `none` is a panic: `make` with a length that is negative or above `maxAlloc`,
the nil dereference of `conn.RemoteAddr()`, or a slice expression out of range. -/
def DataGramMessage.Receive (s : DataGramMessage) (conn : Option PacketConn)
    (data : List Byte) (max min : Int) :
    Option (Int × Option Err × List Byte × Option PacketConn) :=
  let hl := GetHeaderLen
  match makeBytes (wrapInt (hl + max)) with
  | none => none
  | some buf =>
    match conn with
    | none => none
    | some conn =>
      match (if s.timeout ≠ 0 then conn.SetReadDeadline else none) with
      | some err => some (0, some err, data, some conn)
      | none =>
        match conn.Read buf with
        | (_, _, some err, conn) => some (0, some err, data, some conn)
        | (buf, n, none, conn) =>
          if n ≤ hl then some (0, some Err.smallFrame, data, some conn)
          else
            let magic := GetMagic
            if buf.take 2 ≠ magic then some (0, some Err.wrongMagic, data, some conn)
            else
              let size := uint16 (buf.getD 2 0) (buf.getD 3 0)
              if (size : Int) > max ∨ (size : Int) < min then
                some (0, some (Err.wrongSize size), data, some conn)
              else
                match slice buf hl (hl + size) with
                | none => none
                | some tmp =>
                  let tmp := match s.block with
                    | some b => b.encryptInPlace tmp
                    | none => tmp
                  some (tmp.length, none, copy data tmp, some conn)

/-! ## tcp_client.go -/

def CL_INIT : Nat := 0x00

def CL_CONNECTED : Nat := 0x01

def CL_UNAUTH : Nat := 0x02

def CL_AUTHED : Nat := 0x03

def CL_CLOSED : Nat := 0xff

/-- The data fields of `TcpClient`.  The four counters are `uint64` in the source and
unbounded naturals here. -/
structure TcpClientData where
  conn : Option Conn
  maxsize : Int
  minsize : Int
  verbose : Int
  TxOkay : Nat
  RxOkay : Nat
  TxError : Nat
  Droped : Nat
  Status : Nat
  Addr : String
  NewTime : Int
  deriving DecidableEq

/-- `TcpClient`: the data fields and the `onConnected` callback, the callback as its effect
on the data fields of the client it is handed (its `error` result is dropped by the only
caller, `Connect`). -/
structure TcpClient extends TcpClientData where
  onConnected : Option (TcpClientData → TcpClientData)

/-- `NewTcpClient(addr, verbose)`; `now` is `time.Now().Unix()`. -/
def NewTcpClient (addr : String) (verbose : Int) (now : Int) : TcpClient :=
  { Addr := addr, conn := none, maxsize := 1514, minsize := 15, verbose := verbose,
    TxOkay := 0, RxOkay := 0, TxError := 0, Droped := 0, Status := CL_INIT,
    onConnected := none, NewTime := now }

/-- `NewTcpClientFromConn(conn, verbose)`; the fields the literal leaves out are zero. -/
def NewTcpClientFromConn (conn : Conn) (verbose : Int) (now : Int) : TcpClient :=
  { Addr := conn.raddr, conn := some conn, maxsize := 1514, minsize := 15,
    verbose := verbose, TxOkay := 0, RxOkay := 0, TxError := 0, Droped := 0, Status := 0,
    onConnected := none, NewTime := now }

/-- `TcpClient.Connect`; `dial` is what `net.ResolveTCPAddr` followed by `net.DialTCP`
yields when they are reached: a connection, or `none` when either fails. -/
def TcpClient.Connect (this : TcpClient) (dial : Option Conn) : Option Err × TcpClient :=
  match this.conn with
  | some _ => (none, this)
  | none =>
    match dial with
    | none => (some Err.dial, { this with conn := none })
    | some conn =>
      let this := { this with conn := some conn }
      let this := { this with Status := CL_CONNECTED }
      match this.onConnected with
      | some onFn => (none, { this with toTcpClientData := onFn this.toTcpClientData })
      | none => (none, this)

/-- `TcpClient.OnConnected`. -/
def TcpClient.OnConnected (this : TcpClient)
    (onFn : Option (TcpClientData → TcpClientData)) : TcpClient :=
  { this with onConnected := onFn }

/-- `TcpClient.Close`. -/
def TcpClient.Close (this : TcpClient) : TcpClient :=
  match this.conn with
  | some _ => { this with conn := none }
  | none => this

/-- `this.conn.Read(tmp)`; `none` is the nil dereference when `this.conn` is nil (`Read`
is a method promoted from a field embedded in `net.TCPConn`). -/
def TcpClient.connRead (this : TcpClient) (tmp : List Byte) :
    Option (List Byte × Nat × Option Err × TcpClient) :=
  match this.conn with
  | none => none
  | some conn =>
    match conn.Read tmp with
    | (tmp, n, err, conn) => some (tmp, n, err, { this with conn := some conn })

/-- `this.conn.Write(tmp)`; `none` is the nil dereference when `this.conn` is nil (`Write`
is a method promoted from a field embedded in `net.TCPConn`). -/
def TcpClient.connWrite (this : TcpClient) (tmp : List Byte) :
    Option (Nat × Option Err × TcpClient) :=
  match this.conn with
  | none => none
  | some conn =>
    match conn.Write tmp with
    | (n, err, conn) => some (n, err, { this with conn := some conn })

/-- The `for left > 0` loop of `TcpClient.recvn`; `fuel` bounds the number of iterations
and `none` means that the loop has not finished within it. -/
def TcpClient.recvLoop :
    Nat → List Byte → Nat → Nat → TcpClient → Option (Option Err × List Byte × TcpClient)
  | 0, buffer, _, left, this => if left > 0 then none else some (none, buffer, this)
  | fuel + 1, buffer, offset, left, this =>
    if left > 0 then
      let tmp := zeros left
      match this.connRead tmp with
      | none => none
      | some (_, _, some err, this) => some (some err, buffer, this)
      | some (tmp, n, none, this) =>
        TcpClient.recvLoop fuel (copyAt buffer offset tmp) (offset + n) (left - n) this
    else some (none, buffer, this)

/-- `TcpClient.recvn`: the error, the buffer after the call and the client. -/
def TcpClient.recvn (this : TcpClient) (buffer : List Byte) :
    Option (Option Err × List Byte × TcpClient) :=
  let offset := 0
  let left := buffer.length
  TcpClient.recvLoop left buffer offset left this

/-- The `for left > 0` loop of `TcpClient.sendn`; `fuel` bounds the number of iterations
and `none` means that the loop has not finished within it. -/
def TcpClient.sendLoop (buffer : List Byte) (size : Nat) :
    Nat → Nat → Nat → TcpClient → Option (Option Err × TcpClient)
  | 0, _, left, this => if left > 0 then none else some (none, this)
  | fuel + 1, offset, left, this =>
    if left > 0 then
      let tmp := buffer.drop offset
      match this.connWrite tmp with
      | none => none
      | some (_, some err, this) => some (some err, this)
      | some (n, none, this) =>
        TcpClient.sendLoop buffer size fuel (offset + n) (size - (offset + n)) this
    else some (none, this)

/-- `TcpClient.sendn`. -/
def TcpClient.sendn (this : TcpClient) (buffer : List Byte) : Option (Option Err × TcpClient) :=
  let offset := 0
  let size := buffer.length
  let left := size - offset
  TcpClient.sendLoop buffer size left offset left this

/-- `TcpClient.SendMsg`; `dial` as in `Connect`. -/
def TcpClient.SendMsg (this : TcpClient) (dial : Option Conn) (data : List Byte) :
    Option (Option Err × TcpClient) :=
  match this.Connect dial with
  | (some err, this) => some (some err, this)
  | (none, this) =>
    let buffer := frameBuf data.length data
    match this.sendn buffer with
    | none => none
    | some (some err, this) => some (some err, { this with TxError := this.TxError + 1 })
    | some (none, this) => some (none, { this with TxOkay := this.TxOkay + 1 })

def TcpClient.IsOk (this : TcpClient) : Bool := this.conn.isSome

def TcpClient.GetMaxSize (this : TcpClient) : Int := this.maxsize

def TcpClient.SetMaxSize (this : TcpClient) (value : Int) : TcpClient :=
  { this with maxsize := value }

def TcpClient.GetMinSize (this : TcpClient) : Int := this.minsize

/-- `TcpClient.RecvMsg`: the returned count and error, the caller's `data` after the call
and the client. -/
def TcpClient.RecvMsg (this : TcpClient) (data : List Byte) :
    Option (Int × Option Err × List Byte × TcpClient) :=
  if !this.IsOk then some (-1, some Err.notOkay, data, this)
  else
    let h := zeros HSIZE
    match this.recvn h with
    | none => none
    | some (some err, _, this) => some (-1, some err, data, this)
    | some (none, h, this) =>
      if h.take 2 ≠ MAGIC then some (-1, some Err.wrongMagic, data, this)
      else
        let size := uint16 (h.getD 2 0) (h.getD 3 0)
        if (size : Int) > this.maxsize ∨ (size : Int) < this.minsize then
          some (-1, some (Err.wrongSize size), data, this)
        else
          let d := zeros size
          match this.recvn d with
          | none => none
          | some (some err, _, this) => some (-1, some err, data, this)
          | some (none, d, this) =>
            some (size, none, copy data d, { this with RxOkay := this.RxOkay + 1 })

/-! ## The frame buffer -/

/-- Modelled from the spec's wire format `FF FF LEN_HI LEN_LO | PAYLOAD[LEN]`: the frame
of a payload, with the length as a big-endian 16-bit number. -/
def wireFrame (p : List Byte) : List Byte :=
  [0xff, 0xff, Fin.ofNat (p.length / 256), Fin.ofNat (p.length % 256)] ++ p

/-- A cipher for the examples: add one to every byte, and take it off again. -/
def shiftCrypt : BlockCrypt :=
  { Encrypt := fun x => x.map (fun b => b + 1), Decrypt := fun x => x.map (fun b => b - 1) }

/-! ## vswitch.go -/

/-- Modelled from the spec: the configuration of one tenant bridge; the type is declared
outside the given sources (package `config`), these are the fields `vswitch.go` reads. -/
structure BridgeConf where
  Tenant : String
  BrName : String
  Bridger : String
  IfMtu : Int
  IfAddr : String
  deriving DecidableEq

/-- Modelled from the spec: the switch configuration `config.VSwitch`; the type is declared
outside the given sources, these are the fields `vswitch.go` reads. -/
structure VSwitchConf where
  Alias : String
  TcpListen : String
  HttpListen : String
  KeyFile : String
  CrtFile : String
  Bridge : List BridgeConf
  deriving DecidableEq

/-- Modelled from the spec: what `NewWorker(brCfg)` returns; `Worker` is declared outside
the given sources. -/
structure Worker where
  cfg : BridgeConf
  deriving DecidableEq

/-- Modelled from the spec: what `network.NewBridger(kind, name, mtu)` returns; the bridge
interface of the spec's section 4.F is declared outside the given sources. -/
structure Bridger where
  kind : String
  name : String
  mtu : Int
  deriving DecidableEq

/-- Modelled from the spec: what `NewHttp(v, conf)` returns, the admin surface, which is
declared outside the given sources. -/
structure Http where
  listen : String
  deriving DecidableEq

/-- Modelled from the spec: what `libol.NewTcpServer(listen, tlsConf)` returns, the server
acceptor, which is declared outside the given sources. -/
structure TcpServer where
  listen : String
  tls : Bool
  deriving DecidableEq

/-- `Hook`: `func(client *libol.TcpClient, frame *libol.FrameMessage) error`, as the
returned error and the effect on the client and on the rest of the mutable state `W`.
The fields of a frame are not exported, so a hook cannot change the frame. -/
def Hook (W : Type) : Type := TcpClient → FrameMessage → W → Option Err × TcpClient × W

/-- Modelled from the spec: one application handler of the chain (`app.PointAuth`,
`app.Neighbors`, `app.WithRequest`, `app.Online`, all declared outside the given sources),
with its `OnFrame` method, the only part `vswitch.go` uses. -/
structure App (W : Type) where
  OnFrame : Hook W

/-- Modelled from the spec: the constructors of the four application handlers,
`app.NewPointAuth`, `app.NewWithRequest`, `app.NewNeighbors` and `app.NewOnline`, which are
declared outside the given sources. -/
structure AppCtors (W : Type) where
  NewPointAuth : VSwitchConf → App W
  NewWithRequest : VSwitchConf → App W
  NewNeighbors : VSwitchConf → App W
  NewOnline : VSwitchConf → App W

structure Apps (W : Type) where
  Auth : Option (App W)
  Request : Option (App W)
  Neighbor : Option (App W)
  OnLines : Option (App W)

/-- `VSwitch`; a map is a list of key-value pairs and `none` is the nil map. -/
structure VSwitch (W : Type) where
  Conf : VSwitchConf
  Apps : Apps W
  hooks : List (Option (Hook W))
  http : Option Http
  server : Option TcpServer
  bridge : Option (List (String × Bridger))
  worker : Option (List (String × Worker))
  uuid : String
  newTime : Int

/-- Go `m[k] = x` on a map that is not nil. -/
def mapSet {α : Type} (m : List (String × α)) (k : String) (x : α) : List (String × α) :=
  (k, x) :: m.filter (fun e => e.1 ≠ k)

/-- `NewVSwitch(c)`; `now` is `time.Now().Unix()`. -/
def NewVSwitch {W : Type} (c : VSwitchConf) (now : Int) : VSwitch W :=
  let tlsConf := decide (c.KeyFile ≠ "" ∧ c.CrtFile ≠ "")
  { Conf := c,
    Apps := { Auth := none, Request := none, Neighbor := none, OnLines := none },
    hooks := [],
    http := none,
    worker := some [],
    bridge := some [],
    server := some { listen := c.TcpListen, tls := tlsConf },
    uuid := "",
    newTime := now }

/-- The `for _, brCfg := range v.Conf.Bridge` loop of `Initialize` on the two maps; `none`
is the panic of an assignment to an entry of a nil map. -/
def VSwitch.initBridges :
    List BridgeConf → Option (List (String × Worker)) → Option (List (String × Bridger)) →
      Option (Option (List (String × Worker)) × Option (List (String × Bridger)))
  | [], worker, bridge => some (worker, bridge)
  | brCfg :: rest, worker, bridge =>
    let tenant := brCfg.Tenant
    match worker with
    | none => none
    | some worker =>
      match bridge with
      | none => none
      | some bridge =>
        VSwitch.initBridges rest (some (mapSet worker tenant { cfg := brCfg }))
          (some (mapSet bridge tenant
            { kind := brCfg.Bridger, name := brCfg.BrName, mtu := brCfg.IfMtu }))

/-- `VSwitch.Initialize`; `mk` are the constructors of the application handlers. -/
def VSwitch.Initialize {W : Type} (v : VSwitch W) (mk : AppCtors W) : Option (VSwitch W) :=
  let v := if v.Conf.HttpListen ≠ "" then { v with http := some { listen := v.Conf.HttpListen } }
    else v
  match VSwitch.initBridges v.Conf.Bridge v.worker v.bridge with
  | none => none
  | some (worker, bridge) =>
    let v := { v with worker := worker, bridge := bridge }
    let v := { v with Apps := { v.Apps with Auth := some (mk.NewPointAuth v.Conf) } }
    let v := { v with Apps := { v.Apps with Request := some (mk.NewWithRequest v.Conf) } }
    let v := { v with Apps := { v.Apps with Neighbor := some (mk.NewNeighbors v.Conf) } }
    let v := { v with Apps := { v.Apps with OnLines := some (mk.NewOnline v.Conf) } }
    let v := { v with hooks := [] }
    let v := { v with hooks := v.hooks ++ [v.Apps.Auth.map App.OnFrame] }
    let v := { v with hooks := v.hooks ++ [v.Apps.Neighbor.map App.OnFrame] }
    let v := { v with hooks := v.hooks ++ [v.Apps.Request.map App.OnFrame] }
    let v := { v with hooks := v.hooks ++ [v.Apps.OnLines.map App.OnFrame] }
    some v

/-- One call of a hook made by `OnHook`: the position of the hook in the list, the frame
it was handed and the error it returned.  The record of calls is not in the source; it is
kept to state which hooks ran. -/
structure HookCall where
  index : Nat
  frame : FrameMessage
  err : Option Err
  deriving DecidableEq

/-- The `for _, h := range v.hooks` loop of `OnHook`; `i` is the position of the next hook
and `calls` the record of the calls made so far. -/
def VSwitch.hookLoop {W : Type} :
    List (Option (Hook W)) → Nat → TcpClient → FrameMessage → W → List HookCall →
      Option Err × TcpClient × W × List HookCall
  | [], _, client, _, w, calls => (none, client, w, calls)
  | h :: hs, i, client, frame, w, calls =>
    match h with
    | some h =>
      match h client frame w with
      | (some err, client, w) => (some err, client, w, calls ++ [⟨i, frame, some err⟩])
      | (none, client, w) =>
        VSwitch.hookLoop hs (i + 1) client frame w (calls ++ [⟨i, frame, none⟩])
    | none => VSwitch.hookLoop hs (i + 1) client frame w calls

/-- `VSwitch.OnHook`: the returned error, the client and the state after the call and the
record of the hook calls made; `none` is the panic of `NewFrameMessage`. -/
def VSwitch.OnHook {W : Type} (v : VSwitch W) (client : TcpClient) (data : List Byte) (w : W) :
    Option (Option Err × TcpClient × W × List HookCall) :=
  match NewFrameMessage data with
  | none => none
  | some frame => some (VSwitch.hookLoop v.hooks 0 client frame w [])

/-- Handlers for the examples, over a counter as state: Auth and Neighbor pass the frame on,
Request returns an error, Online passes it on. -/
def exampleCtors : AppCtors Nat :=
  { NewPointAuth := fun _ => { OnFrame := fun c _ w => (none, c, w + 1) },
    NewNeighbors := fun _ => { OnFrame := fun c _ w => (none, c, w + 10) },
    NewWithRequest := fun _ => { OnFrame := fun c _ w => (some (Err.app 7), c, w + 100) },
    NewOnline := fun _ => { OnFrame := fun c _ w => (none, c, w + 1000) } }

/-- A configuration for the examples: one tenant bridge. -/
def exampleConf : VSwitchConf :=
  { Alias := "sw", TcpListen := "0.0.0.0:10002", HttpListen := "0.0.0.0:10000",
    KeyFile := "", CrtFile := "",
    Bridge := [{ Tenant := "default", BrName := "br-default", Bridger := "linux",
                 IfMtu := 1518, IfAddr := "" }] }

/-! ## Sequences of calls and predicates for the counters -/

/-- The callback leaves the four counters of the client alone and does not take the
connection away from it. -/
def keepsCounters (f : TcpClientData → TcpClientData) : Prop :=
  ∀ d, (f d).TxOkay = d.TxOkay ∧ (f d).RxOkay = d.RxOkay ∧ (f d).TxError = d.TxError ∧
    (f d).Droped = d.Droped ∧ (d.conn.isSome = true → (f d).conn.isSome = true)

/-- The number of calls of a sequence of `SendMsg` calls that get past `Connect`: a call
does when the client has a connection already (`connected`) or dialing yields one, and
from then on the client has a connection. -/
def attempts : Bool → List (Option Conn × List Byte) → Nat
  | _, [] => 0
  | connected, (dial, _) :: rest =>
    if connected = true ∨ dial.isSome = true then attempts true rest + 1
    else attempts false rest

/-- The two clients have the same counters and the same callback. -/
def sameCounters (a b : TcpClient) : Prop :=
  a.TxOkay = b.TxOkay ∧ a.RxOkay = b.RxOkay ∧ a.TxError = b.TxError ∧ a.Droped = b.Droped ∧
    a.onConnected = b.onConnected

/-- A sequence of `SendMsg` calls on one client, each with what dialing yields if that call
gets to dial and with its payload: the errors returned, call by call, and the client after
the last call. -/
def TcpClient.sendAll :
    TcpClient → List (Option Conn × List Byte) → Option (List (Option Err) × TcpClient)
  | this, [] => some ([], this)
  | this, (dial, data) :: rest =>
    match this.SendMsg dial data with
    | none => none
    | some (err, this) =>
      match TcpClient.sendAll this rest with
      | none => none
      | some (errs, this) => some (err :: errs, this)

/-! ## logger.go -/

def INFO : Int := 20

structure Message where
  Level : String
  Date : String
  Message : String
  deriving DecidableEq

/-- The logger `_Log`: `FileLog` is the file logger, as the lines it has written (`none`
is the nil pointer), and `Errors` is the `container/list` ring from front to back. -/
structure _Log where
  Level : Int
  FileName : String
  FileLog : Option (List String)
  Errors : List Message
  deriving DecidableEq

/-- `_Log.Save(level, format, v...)`: `m` is the formatted text `fmt.Sprintf(format, v...)`
and `date` the formatted `time.Now()`.  `Errors.Back()` is the last element of the list
and `Errors.PushBack` appends at the back. -/
def _Log.Save (l : _Log) (level m date : String) : _Log :=
  let l := match l.FileLog with
    | some lines => { l with FileLog := some (lines ++ [level ++ " " ++ m]) }
    | none => l
  let l := if l.Errors.length ≥ 1024 then
      match l.Errors.getLast? with
      | some _ => { l with Errors := l.Errors.dropLast }
      | none => l
    else l
  let ele : Message := { Level := level, Date := date, Message := m }
  { l with Errors := l.Errors ++ [ele] }

/-- The package variable `Logger`. -/
def Logger : _Log :=
  { Level := INFO, FileName := ".log.error", FileLog := none, Errors := [] }

/-- A sequence of `Save` calls, one for each entry given, oldest first. -/
def _Log.saveAll : _Log → List Message → _Log
  | l, [] => l
  | l, e :: es => _Log.saveAll (l.Save e.Level e.Message e.Date) es

/-! ## vswitch.go: Start -/

/-- What `Start` sets going besides changing the switch: the two server goroutines, the
workers, the bridges it opens and the http goroutine.  The record is not in the source; it
is kept to state what a call of `Start` has started. -/
inductive Effect where
  | serverAccept
  | serverLoop
  | workerStart (tenant : String)
  | bridgeOpen (name : String) (addr : String)
  | httpStart
  deriving DecidableEq, Repr

/-- Go `m[k]` with the comma-ok form, on a map that may be nil. -/
def mapGet {α : Type} (m : Option (List (String × α))) (k : String) : Option α :=
  match m with
  | none => none
  | some m => (m.find? (fun e => e.1 = k)).map (fun e => e.2)

/-- `VSwitch.Start`: the returned error, the switch after the call and what the call has
started; `none` is a panic inside `Initialize`. -/
def VSwitch.Start {W : Type} (v : VSwitch W) (mk : AppCtors W) :
    Option (Option Err × VSwitch W × List Effect) :=
  if v.bridge.isSome ∨ v.http.isSome then some (some Err.alreadyRunning, v, [])
  else
    match v.Initialize mk with
    | none => none
    | some v =>
      let started := [Effect.serverAccept]
      let started := started ++ [Effect.serverLoop]
      let started := started ++
        (match v.worker with
          | none => []
          | some ws => ws.map (fun w => Effect.workerStart w.1))
      let started := started ++
        v.Conf.Bridge.filterMap (fun brCfg =>
          (mapGet v.bridge brCfg.BrName).map (fun br => Effect.bridgeOpen br.name brCfg.IfAddr))
      let started := started ++ (if v.http.isSome then [Effect.httpStart] else [])
      some (none, v, started)

/-! # Theorems -/

/-! ## Go slices -/

theorem zeros_length (n : Nat) : (zeros n).length = n := by
  simp [zeros]

theorem copyAt_length (dst src : List Byte) (off : Nat) (h : off ≤ dst.length) :
    (copyAt dst off src).length = dst.length := by
  simp only [copyAt, List.length_append, List.length_take, List.length_drop]
  omega

theorem copyAt_exact (dst src : List Byte) (off : Nat) (h : off + src.length = dst.length) :
    copyAt dst off src = dst.take off ++ src := by
  have h1 : src.take (dst.length - off) = src := List.take_of_length_le (by omega)
  have h2 : dst.drop (off + src.length) = [] := List.drop_of_length_le (by omega)
  simp [copyAt, h1, h2]

theorem copy_front (dst src : List Byte) (h : src.length ≤ dst.length) :
    copy dst src = src ++ dst.drop src.length := by
  have h1 : src.take (dst.length - 0) = src := List.take_of_length_le (by omega)
  simp [copy, copyAt, h1, h]

theorem copy_same_length (dst src : List Byte) (h : src.length = dst.length) :
    copy dst src = src := by
  rw [copy_front dst src (by omega), List.drop_of_length_le (by omega)]
  simp

theorem copy_length (dst src : List Byte) : (copy dst src).length = dst.length :=
  copyAt_length dst src 0 (Nat.zero_le _)

/-! ## The control classifier -/

theorem take6_zero_iff (data : List Byte) (h : 6 ≤ data.length) :
    data.take 6 = ZEROED.take 6 ↔ ∀ i, i < 6 → data[i]? = some 0 := by
  rcases data with _ | ⟨a, _ | ⟨b, _ | ⟨c, _ | ⟨d, _ | ⟨e, _ | ⟨f, r⟩⟩⟩⟩⟩⟩ <;>
    simp at h
  constructor
  · intro hz i hi
    simp [ZEROED, zeros, List.replicate] at hz
    obtain ⟨rfl, rfl, rfl, rfl, rfl, rfl⟩ := hz
    interval_cases i <;> simp
  · intro hz
    have h0 := hz 0 (by omega)
    have h1 := hz 1 (by omega)
    have h2 := hz 2 (by omega)
    have h3 := hz 3 (by omega)
    have h4 := hz 4 (by omega)
    have h5 := hz 5 (by omega)
    simp at h0 h1 h2 h3 h4 h5
    subst h0 h1 h2 h3 h4 h5
    simp [ZEROED, zeros, List.replicate]

theorem IsControl_eq_true (data : List Byte) :
    IsControl data = true ↔ 6 ≤ data.length ∧ ∀ i, i < 6 → data[i]? = some 0 := by
  unfold IsControl
  by_cases h : data.length < 6
  · simp [h]
  · have h6 : 6 ≤ data.length := by omega
    simp only [h, if_false]
    rw [← take6_zero_iff data h6]
    by_cases hz : data.take 6 = ZEROED.take 6 <;> simp [hz, h6]

/-- C3: `IsControl(data)` is true exactly when `data` has at least six bytes and each of
its first six bytes is zero. -/
theorem IsControl_iff (data : List Byte) :
    IsControl data = true ↔ 6 ≤ data.length ∧ ∀ i, i < 6 → data[i]? = some 0 :=
  IsControl_eq_true data

/-! ## The frame buffer -/

theorem putUint16_eq (n : Nat) (h : n ≤ 65535) :
    putUint16 n = [Fin.ofNat (n / 256), Fin.ofNat (n % 256)] := by
  simp only [putUint16, Fin.ofNat, List.cons.injEq, Fin.mk.injEq, and_true]
  omega

theorem frameBuf_eq (data : List Byte) (n : Nat) (h : data.length = n) :
    frameBuf n data = [0xff, 0xff] ++ putUint16 n ++ data := by
  subst h
  have hz : zeros (HSIZE + data.length) = 0 :: 0 :: 0 :: 0 :: zeros data.length := by
    simp [zeros, HSIZE, Nat.add_comm 4, List.replicate_succ]
  simp only [frameBuf, hz]
  simp [copyAt, MAGIC, putUint16, HSIZE, zeros]
  omega

theorem frameBuf_wire (p : List Byte) (h : p.length ≤ 65535) :
    frameBuf p.length p = wireFrame p := by
  rw [frameBuf_eq p p.length rfl, putUint16_eq _ h]
  rfl

theorem wireFrame_length (p : List Byte) : (wireFrame p).length = 4 + p.length := by
  simp [wireFrame]
  omega

/-! ## Full writes and full reads -/

theorem noFail_cons (e : Option Nat) (r : List (Option Nat)) (h : noFail (e :: r) = true) :
    (∃ k, e = some k) ∧ noFail r = true := by
  simp [noFail] at h
  refine ⟨?_, ?_⟩
  · cases e with
    | none => simp at h
    | some k => exact ⟨k, rfl⟩
  · simpa [noFail] using h.2

theorem Conn_Write_ok (c : Conn) (b : List Byte) (h : noFail c.wscript = true) :
    ∃ n ws, c.Write b = (n, none, { c with tx := c.tx ++ b.take n, wscript := ws }) ∧
      noFail ws = true ∧ n ≤ b.length ∧ (0 < b.length → 1 ≤ n) := by
  unfold Conn.Write popEv
  cases hw : c.wscript with
  | nil =>
    refine ⟨min (max b.length 1) b.length, [], rfl, rfl, ?_, ?_⟩ <;> omega
  | cons e r =>
    rw [hw] at h
    obtain ⟨⟨k, rfl⟩, hr⟩ := noFail_cons e r h
    refine ⟨min (max k 1) b.length, r, rfl, hr, ?_, ?_⟩ <;> omega

theorem Conn_Read_ok (c : Conn) (left : Nat) (h : noFail c.rscript = true)
    (hl : 0 < left) (hrx : 0 < c.rx.length) :
    ∃ n rs, c.Read (zeros left) =
        (c.rx.take n ++ zeros (left - n), n, none, { c with rx := c.rx.drop n, rscript := rs }) ∧
      noFail rs = true ∧ 1 ≤ n ∧ n ≤ left ∧ n ≤ c.rx.length := by
  have key : ∀ n, n ≤ left → n ≤ c.rx.length →
      copy (zeros left) (c.rx.take n) = c.rx.take n ++ zeros (left - n) := by
    intro n h1 h2
    rw [copy_front _ _ (by simp [zeros_length]; omega)]
    simp [zeros, List.length_take, Nat.min_eq_left h2]
  unfold Conn.Read popEv
  have hl0 : ¬ (zeros left).length = 0 := by rw [zeros_length]; omega
  have hr0 : ¬ c.rx.length = 0 := by omega
  cases hw : c.rscript with
  | nil =>
    simp only [hl0, hr0, if_false]
    refine ⟨min (max (zeros left).length 1) (min (zeros left).length c.rx.length), [], ?_, rfl, ?_⟩
    · rw [key _ (by rw [zeros_length]; omega) (by omega)]
    · rw [zeros_length]; omega
  | cons e r =>
    rw [hw] at h
    obtain ⟨⟨k, rfl⟩, hr⟩ := noFail_cons e r h
    simp only [hl0, hr0, if_false]
    refine ⟨min (max k 1) (min (zeros left).length c.rx.length), r, ?_, hr, ?_⟩
    · rw [key _ (by rw [zeros_length]; omega) (by omega)]
    · rw [zeros_length]; omega

theorem StreamMessage_write_eq (s : StreamMessage) (conn : Conn) (tmp : List Byte) (n : Nat)
    (c : Conn) (h : conn.Write tmp = (n, none, c)) : s.write conn tmp = (n, none, c) := by
  unfold StreamMessage.write
  simp [Conn.SetWriteDeadline, h]

theorem StreamMessage_read_eq (s : StreamMessage) (conn : Conn) (tmp t : List Byte) (n : Nat)
    (c : Conn) (h : conn.Read tmp = (t, n, none, c)) : s.read conn tmp = (t, n, none, c) := by
  unfold StreamMessage.read
  simp [Conn.SetReadDeadline, h]

theorem StreamMessage_writeLoop_ok (s : StreamMessage) (buf : List Byte) :
    ∀ (fuel offset : Nat) (conn : Conn), noFail conn.wscript = true → offset ≤ buf.length →
      buf.length - offset ≤ fuel →
      ∃ ws, noFail ws = true ∧
        s.writeLoop buf buf.length fuel offset (buf.length - offset) conn =
          some (none, { conn with tx := conn.tx ++ buf.drop offset, wscript := ws }) := by
  intro fuel
  induction fuel with
  | zero =>
    intro offset conn hw ho hf
    refine ⟨conn.wscript, hw, ?_⟩
    have h0 : buf.length - offset = 0 := by omega
    have hd : buf.drop offset = [] := List.drop_of_length_le (by omega)
    simp [StreamMessage.writeLoop, h0, hd]
  | succ fuel ih =>
    intro offset conn hw ho hf
    by_cases hl : buf.length - offset > 0
    · obtain ⟨n, ws, hwr, hws, hn, hn1⟩ := Conn_Write_ok conn (buf.drop offset) hw
      have hlen : (buf.drop offset).length = buf.length - offset := by simp
      rw [hlen] at hn hn1
      have hn1 := hn1 hl
      obtain ⟨ws2, hws2, hrec⟩ := ih (offset + n)
        { conn with tx := conn.tx ++ (buf.drop offset).take n, wscript := ws } hws
        (by omega) (by omega)
      refine ⟨ws2, hws2, ?_⟩
      rw [StreamMessage.writeLoop]
      simp only [hl, if_true, StreamMessage_write_eq s _ _ _ _ hwr]
      rw [hrec]
      have hsplit : (buf.drop offset).take n ++ buf.drop (offset + n) = buf.drop offset := by
        rw [← List.drop_drop]
        exact List.take_append_drop n (buf.drop offset)
      simp [List.append_assoc, hsplit]
    · refine ⟨conn.wscript, hw, ?_⟩
      have h0 : buf.length - offset = 0 := by omega
      have hd : buf.drop offset = [] := List.drop_of_length_le (by omega)
      simp [StreamMessage.writeLoop, h0, hd]

theorem StreamMessage_writeFull_ok (s : StreamMessage) (conn : Conn) (buf : List Byte)
    (hw : noFail conn.wscript = true) :
    ∃ ws, noFail ws = true ∧
      s.writeFull (some conn) buf = some (none, some { conn with tx := conn.tx ++ buf, wscript := ws }) := by
  obtain ⟨ws, hws, h⟩ := StreamMessage_writeLoop_ok s buf buf.length 0 conn hw (by omega) (by omega)
  refine ⟨ws, hws, ?_⟩
  simp only [StreamMessage.writeFull, Nat.sub_zero] at h ⊢
  rw [h]
  simp

theorem StreamMessage_readLoop_ok (s : StreamMessage) :
    ∀ (fuel : Nat) (buf : List Byte) (offset left : Nat) (conn : Conn) (xs rest : List Byte),
      noFail conn.rscript = true → conn.rx = xs ++ rest → xs.length = left →
      offset + left = buf.length → left ≤ fuel →
      ∃ rs, noFail rs = true ∧
        s.readLoop fuel buf offset left conn =
          some (none, buf.take offset ++ xs, { conn with rx := rest, rscript := rs }) := by
  intro fuel
  induction fuel with
  | zero =>
    intro buf offset left conn xs rest hr hrx hxs hol hf
    have h0 : left = 0 := by omega
    subst h0
    have hx : xs = [] := List.length_eq_zero.mp hxs
    subst hx
    refine ⟨conn.rscript, hr, ?_⟩
    have : buf.take offset = buf := List.take_of_length_le (by omega)
    simp at hrx
    simp [StreamMessage.readLoop, this, ← hrx]
  | succ fuel ih =>
    intro buf offset left conn xs rest hr hrx hxs hol hf
    by_cases hl : left > 0
    · have hrxlen : 0 < conn.rx.length := by rw [hrx]; simp; omega
      obtain ⟨n, rs, hrd, hrs, hn1, hnl, hnr⟩ := Conn_Read_ok conn left hr hl hrxlen
      have htake : conn.rx.take n = xs.take n := by
        rw [hrx, List.take_append_of_le_length (by omega)]
      have hdrop : conn.rx.drop n = xs.drop n ++ rest := by
        rw [hrx, List.drop_append_of_le_length (by omega)]
      have hcopy : copyAt buf offset (conn.rx.take n ++ zeros (left - n)) =
          buf.take offset ++ (xs.take n ++ zeros (left - n)) := by
        rw [copyAt_exact _ _ _ (by simp [zeros_length, List.length_take]; omega), htake]
      obtain ⟨rs2, hrs2, hrec⟩ := ih (copyAt buf offset (conn.rx.take n ++ zeros (left - n)))
        (offset + n) (left - n) { conn with rx := conn.rx.drop n, rscript := rs }
        (xs.drop n) rest hrs hdrop (by simp; omega)
        (by rw [copyAt_length _ _ _ (by omega)]; omega) (by omega)
      refine ⟨rs2, hrs2, ?_⟩
      rw [StreamMessage.readLoop]
      simp only [hl, if_true, StreamMessage_read_eq s _ _ _ _ _ hrd]
      rw [hrec, hcopy]
      have h1 : (buf.take offset ++ (xs.take n ++ zeros (left - n))).take (offset + n) =
          buf.take offset ++ xs.take n := by
        rw [← List.append_assoc, List.take_append_of_le_length
          (by simp [List.length_take]; omega)]
        exact List.take_of_length_le (by simp [List.length_take]; omega)
      rw [h1, List.append_assoc, List.take_append_drop]
    · have h0 : left = 0 := by omega
      subst h0
      have hx : xs = [] := List.length_eq_zero.mp hxs
      subst hx
      refine ⟨conn.rscript, hr, ?_⟩
      have : buf.take offset = buf := List.take_of_length_le (by omega)
      simp at hrx
      simp [StreamMessage.readLoop, this, ← hrx]

theorem StreamMessage_readFull_ok (s : StreamMessage) (conn : Conn) (buf xs rest : List Byte)
    (hr : noFail conn.rscript = true) (hrx : conn.rx = xs ++ rest)
    (hxs : xs.length = buf.length) :
    ∃ rs, noFail rs = true ∧
      s.readFull (some conn) buf = some (none, xs, some { conn with rx := rest, rscript := rs }) := by
  obtain ⟨rs, hrs, h⟩ := StreamMessage_readLoop_ok s buf.length buf 0 buf.length conn xs rest
    hr hrx hxs (by omega) (by omega)
  refine ⟨rs, hrs, ?_⟩
  simp only [StreamMessage.readFull]
  rw [h]
  simp

theorem makeBytes_header (max : Int) (h0 : 0 ≤ max) (h1 : (HSIZE : Int) + max ≤ maxAlloc) :
    makeBytes (wrapInt ((GetHeaderLen : Int) + max)) = some (zeros (4 + max.toNat)) := by
  have hH : (GetHeaderLen : Int) = 4 := rfl
  have hS : (HSIZE : Int) = 4 := rfl
  have hA : maxAlloc = 281474976710656 := rfl
  rw [hS, hA] at h1
  have hw : wrapInt ((GetHeaderLen : Int) + max) = 4 + max := by
    rw [hH]
    unfold wrapInt
    omega
  have hn : ¬ ((4 : Int) + max < 0 ∨ (4 : Int) + max > maxAlloc) := by
    rw [hA]
    omega
  rw [hw]
  simp only [makeBytes, hn, if_false]
  congr 2
  omega

theorem uint16_putUint16 (n : Nat) (h : n ≤ 65535) (hi lo : Byte)
    (hp : putUint16 n = [hi, lo]) : uint16 hi lo = n := by
  simp only [putUint16, List.cons.injEq, and_true] at hp
  obtain ⟨h1, h2⟩ := hp
  subst h1 h2
  simp only [uint16]
  omega

theorem slice_length (buf : List Byte) (lo hi : Nat) (h1 : lo ≤ hi) (h2 : hi ≤ buf.length) :
    ∃ tmp, slice buf lo hi = some tmp ∧ tmp.length = hi - lo := by
  refine ⟨(buf.take hi).drop lo, ?_, ?_⟩
  · simp [slice, h1, h2]
  · simp [List.length_take]
    omega

/-- What `StreamMessage.Receive` does with one well-formed frame at the head of the stream:
it hands the (decrypted) payload over and leaves the rest of the stream unread. -/
theorem StreamMessage_Receive_frame (s : StreamMessage) (conn : Conn) (q data rest : List Byte)
    (max min : Int) (hmin : min ≤ q.length) (hmax : (q.length : Int) ≤ max)
    (halloc : (HSIZE : Int) + max ≤ maxAlloc)
    (hlen : q.length ≤ 65535) (hr : noFail conn.rscript = true)
    (hrx : conn.rx = ([(0xff : Byte), 0xff] ++ putUint16 q.length ++ q) ++ rest) :
    ∃ rs, noFail rs = true ∧
      s.Receive (some conn) data max min =
        some ((((match s.block with
                | some b => b.decryptInPlace q
                | none => q).length : Nat) : Int),
              none,
              copy data (match s.block with
                | some b => b.decryptInPlace q
                | none => q),
              some { conn with rx := rest, rscript := rs }) := by
  obtain ⟨hi, lo, hp⟩ : ∃ hi lo, putUint16 q.length = [hi, lo] := ⟨_, _, rfl⟩
  have hsz : uint16 hi lo = q.length := uint16_putUint16 _ hlen hi lo hp
  have hmk : makeBytes (wrapInt ((GetHeaderLen : Int) + max)) = some (zeros (4 + max.toNat)) :=
    makeBytes_header max (by omega) halloc
  have hh : slice (zeros (4 + max.toNat)) 0 GetHeaderLen = some (zeros 4) := by
    simp [slice, GetHeaderLen, HSIZE, zeros, List.take_replicate]
  have hrx1 : conn.rx = [0xff, 0xff, hi, lo] ++ (q ++ rest) := by
    rw [hrx, hp]; simp
  obtain ⟨rs1, hrs1, hrd1⟩ := StreamMessage_readFull_ok s conn (zeros 4) [0xff, 0xff, hi, lo]
    (q ++ rest) hr hrx1 (by simp [zeros])
  obtain ⟨tmp, htmp, htl⟩ := slice_length (copyAt (zeros (4 + max.toNat)) 0 [0xff, 0xff, hi, lo])
    GetHeaderLen (GetHeaderLen + q.length) (by omega)
    (by rw [copyAt_length _ _ _ (by omega), zeros_length]; simp [GetHeaderLen, HSIZE]; omega)
  obtain ⟨rs2, hrs2, hrd2⟩ := StreamMessage_readFull_ok s
    { conn with rx := q ++ rest, rscript := rs1 } tmp q rest hrs1 rfl (by omega)
  refine ⟨rs2, hrs2, ?_⟩
  unfold StreamMessage.Receive
  simp only [hmk, hh, hrd1]
  have hmagic : ¬ (List.take 2 [(0xff : Byte), 0xff, hi, lo] ≠ GetMagic) := by
    simp [GetMagic, MAGIC]
  have hg2 : [(0xff : Byte), 0xff, hi, lo].getD 2 0 = hi := rfl
  have hg3 : [(0xff : Byte), 0xff, hi, lo].getD 3 0 = lo := rfl
  have hrange : ¬ ((q.length : Int) > max ∨ (q.length : Int) < min) := by omega
  simp only [hmagic, if_false, hg2, hg3, hsz, hrange, htmp, hrd2]

/-- What `StreamMessage.Send` writes when no write fails: the header and the (encrypted)
payload, whatever the split into partial writes. -/
theorem StreamMessage_Send_frame (s : StreamMessage) (conn : Conn) (p : List Byte)
    (hw : noFail conn.wscript = true)
    (hb : ∀ b, s.block = some b → (b.Encrypt p).length = p.length) :
    ∃ ws, noFail ws = true ∧
      s.Send (some conn) p =
        some (((p.length : Nat) : Int), none,
          (match s.block with
            | some b => b.Encrypt p
            | none => p),
          some { conn with
            tx := conn.tx ++ ([(0xff : Byte), 0xff] ++ putUint16 p.length ++
              (match s.block with
                | some b => b.Encrypt p
                | none => p)),
            wscript := ws }) := by
  have hq : (match s.block with
      | some b => b.encryptInPlace p
      | none => p) = (match s.block with
      | some b => b.Encrypt p
      | none => p) := by
    cases hbk : s.block with
    | none => rfl
    | some b => simp [BlockCrypt.encryptInPlace, copy_same_length _ _ (hb b hbk)]
  have hql : (match s.block with
      | some b => b.Encrypt p
      | none => p).length = p.length := by
    cases hbk : s.block with
    | none => rfl
    | some b => simp [hb b hbk]
  obtain ⟨ws, hws, h⟩ := StreamMessage_writeFull_ok s conn
    ([(0xff : Byte), 0xff] ++ putUint16 p.length ++ (match s.block with
      | some b => b.Encrypt p
      | none => p)) hw
  refine ⟨ws, hws, ?_⟩
  unfold StreamMessage.Send
  simp only [hq, frameBuf_eq _ _ hql, h]

/-! ## C1, C2: the stream round trip and the wire format -/

theorem shiftCrypt_inverse (x : List Byte) : shiftCrypt.Decrypt (shiftCrypt.Encrypt x) = x := by
  simp [shiftCrypt, List.map_map, Function.comp_def]

/-- C1, as the code has it: with no cipher, or with a length-preserving cipher whose
`Decrypt` inverts `Encrypt`, with connections on which no call fails, and for bounds
`min ≤ len(p) ≤ max` with `len(p) ≤ 65535` and `4 + max` no more than `make` can allocate
(`maxAlloc`), `StreamMessage.Send(p)` returns `(len(p), nil)` and writes a frame that starts
with `FF FF`, whatever the split into partial writes; and `StreamMessage.Receive(max, min)`
on a stream that starts with that frame returns `(len(p), nil)`, whatever the split into
partial reads, copies `p` into the caller's buffer (all of `p` when the buffer has room for
it) and leaves the bytes after the frame unread. -/
theorem StreamMessage_roundtrip (s : StreamMessage) (p data rest : List Byte) (max min : Int)
    (cs cr : Conn)
    (hmin : min ≤ p.length) (hmax : (p.length : Int) ≤ max) (hlen : p.length ≤ 65535)
    (halloc : (HSIZE : Int) + max ≤ maxAlloc)
    (hblock : ∀ b, s.block = some b →
      (∀ x, (b.Encrypt x).length = x.length) ∧ ∀ x, b.Decrypt (b.Encrypt x) = x)
    (hw : noFail cs.wscript = true) (hr : noFail cr.rscript = true) :
    ∃ p' cs' frame,
      s.Send (some cs) p = some ((p.length : Int), none, p', some cs') ∧
      cs'.tx = cs.tx ++ frame ∧ frame.take 2 = [0xff, 0xff] ∧
      (cr.rx = frame ++ rest →
        ∃ cr', s.Receive (some cr) data max min =
            some ((p.length : Int), none, copy data p, some cr') ∧
          cr'.rx = rest ∧ (p.length ≤ data.length → (copy data p).take p.length = p)) := by
  obtain ⟨ws, _, hsend⟩ := StreamMessage_Send_frame s cs p hw
    (fun b hb => (hblock b hb).1 p)
  have hql : (match s.block with
      | some b => b.Encrypt p
      | none => p).length = p.length := by
    cases hbk : s.block with
    | none => rfl
    | some b => simp [(hblock b hbk).1 p]
  have hdec : (match s.block with
      | some b => b.decryptInPlace (match s.block with
          | some b => b.Encrypt p
          | none => p)
      | none => (match s.block with
          | some b => b.Encrypt p
          | none => p)) = p := by
    cases hbk : s.block with
    | none => rfl
    | some b =>
      simp only [BlockCrypt.decryptInPlace, (hblock b hbk).2 p]
      exact copy_same_length _ _ ((hblock b hbk).1 p).symm
  refine ⟨_, _, _, hsend, rfl, by simp [putUint16], ?_⟩
  intro hrx
  rw [← hql] at hmin hmax hlen
  have hrx2 : cr.rx = ([(0xff : Byte), 0xff] ++ putUint16 (match s.block with
      | some b => b.Encrypt p
      | none => p).length ++ (match s.block with
      | some b => b.Encrypt p
      | none => p)) ++ rest := by
    rw [hql]; exact hrx
  obtain ⟨rs, _, hrecv⟩ := StreamMessage_Receive_frame s cr _ data rest max min hmin hmax
    halloc hlen hr hrx2
  rw [hdec] at hrecv
  refine ⟨_, hrecv, rfl, ?_⟩
  intro hd
  rw [copy_front _ _ hd, List.take_left']
  rfl

theorem StreamMessage_roundtrip_witness :
    ∃ p' cs' frame,
      StreamMessage.Send { timeout := 5, block := some shiftCrypt }
          (some { raddr := "peer", rx := [], tx := [], rscript := [], wscript := [some 1, some 9] })
          [1, 2, 3] = some (((3 : Nat) : Int), none, p', some cs') ∧
      cs'.tx = [] ++ frame ∧ frame.take 2 = [0xff, 0xff] ∧
      (([0xff, 0xff, 0, 3, 2, 3, 4, 7] : List Byte) = frame ++ [7] →
        ∃ cr', StreamMessage.Receive { timeout := 5, block := some shiftCrypt }
            (some { raddr := "peer", rx := [0xff, 0xff, 0, 3, 2, 3, 4, 7], tx := [],
                    rscript := [some 3, some 1, some 2], wscript := [] })
            [9, 9, 9, 9] 1514 0 = some (((3 : Nat) : Int), none, copy [9, 9, 9, 9] [1, 2, 3], some cr') ∧
          cr'.rx = [7] ∧ (3 ≤ 4 → (copy [9, 9, 9, 9] ([1, 2, 3] : List Byte)).take 3 = [1, 2, 3])) :=
  StreamMessage_roundtrip { timeout := 5, block := some shiftCrypt } [1, 2, 3] [9, 9, 9, 9] [7]
    1514 0
    { raddr := "peer", rx := [], tx := [], rscript := [], wscript := [some 1, some 9] }
    { raddr := "peer", rx := [0xff, 0xff, 0, 3, 2, 3, 4, 7], tx := [],
      rscript := [some 3, some 1, some 2], wscript := [] }
    (by decide) (by decide) (by decide) (by decide)
    (fun b hb => by
      cases hb
      exact ⟨fun x => by simp [shiftCrypt], shiftCrypt_inverse⟩)
    (by decide) (by decide)

/-- C1 fails as stated: for the payload `[1]` and the bounds `min = 0`,
`max = 9223372036854775807` (the largest `int`), which satisfy `min ≤ len(p) ≤ max` and
`len(p) ≤ 65535`, `Send` writes the frame `FF FF 00 01 01`, but `Receive(max, min)` on that
frame does not return `(1, nil)`: `hl + max` wraps to a negative `int` and
`make([]byte, hl+max)` panics before a byte is read. -/
theorem StreamMessage_Receive_max_int :
    ((0 : Int) ≤ (([1] : List Byte).length : Int) ∧
      ((([1] : List Byte).length : Int) ≤ 9223372036854775807) ∧
      ([1] : List Byte).length ≤ 65535) ∧
    StreamMessage.Send { timeout := 0, block := none }
        (some { raddr := "peer", rx := [], tx := [], rscript := [], wscript := [] }) [1] =
      some (1, none, [1],
        some { raddr := "peer", rx := [], tx := [0xff, 0xff, 0, 1, 1], rscript := [],
               wscript := [] }) ∧
    wrapInt ((GetHeaderLen : Int) + 9223372036854775807) = -9223372036854775805 ∧
    StreamMessage.Receive { timeout := 0, block := none }
        (some { raddr := "peer", rx := [0xff, 0xff, 0, 1, 1], tx := [], rscript := [],
                wscript := [] })
        [0] 9223372036854775807 0 = none := by
  refine ⟨by decide, by decide, by decide, by decide⟩

/-! ## The loops of tcp_client.go -/

theorem TcpClient_sendLoop_ok (buf : List Byte) :
    ∀ (fuel offset : Nat) (this : TcpClient) (c : Conn), this.conn = some c →
      noFail c.wscript = true → offset ≤ buf.length → buf.length - offset ≤ fuel →
      ∃ ws, noFail ws = true ∧
        TcpClient.sendLoop buf buf.length fuel offset (buf.length - offset) this =
          some (none, { this with
            conn := some { c with tx := c.tx ++ buf.drop offset, wscript := ws } }) := by
  intro fuel
  induction fuel with
  | zero =>
    intro offset this c hc hw ho hf
    refine ⟨c.wscript, hw, ?_⟩
    have h0 : buf.length - offset = 0 := by omega
    have hd : buf.drop offset = [] := List.drop_of_length_le (by omega)
    obtain ⟨⟨conn, _, _, _, _, _, _, _, _, _, _⟩, _⟩ := this
    simp only at hc
    subst hc
    simp [TcpClient.sendLoop, h0, hd]
  | succ fuel ih =>
    intro offset this c hc hw ho hf
    by_cases hl : buf.length - offset > 0
    · obtain ⟨n, ws, hwr, hws, hn, hn1⟩ := Conn_Write_ok c (buf.drop offset) hw
      have hlen : (buf.drop offset).length = buf.length - offset := by simp
      rw [hlen] at hn hn1
      have hn1 := hn1 hl
      obtain ⟨ws2, hws2, hrec⟩ := ih (offset + n)
        { this with conn := some { c with tx := c.tx ++ (buf.drop offset).take n, wscript := ws } }
        { c with tx := c.tx ++ (buf.drop offset).take n, wscript := ws } rfl hws
        (by omega) (by omega)
      refine ⟨ws2, hws2, ?_⟩
      rw [TcpClient.sendLoop]
      simp only [hl, if_true, TcpClient.connWrite, hc, hwr]
      rw [hrec]
      have hsplit : (buf.drop offset).take n ++ buf.drop (offset + n) = buf.drop offset := by
        rw [← List.drop_drop]
        exact List.take_append_drop n (buf.drop offset)
      simp [List.append_assoc, hsplit]
    · refine ⟨c.wscript, hw, ?_⟩
      have h0 : buf.length - offset = 0 := by omega
      have hd : buf.drop offset = [] := List.drop_of_length_le (by omega)
      obtain ⟨⟨conn, _, _, _, _, _, _, _, _, _, _⟩, _⟩ := this
      simp only at hc
      subst hc
      simp [TcpClient.sendLoop, h0, hd]

theorem TcpClient_sendn_ok (this : TcpClient) (c : Conn) (buf : List Byte)
    (hc : this.conn = some c) (hw : noFail c.wscript = true) :
    ∃ ws, noFail ws = true ∧
      this.sendn buf =
        some (none, { this with conn := some { c with tx := c.tx ++ buf, wscript := ws } }) := by
  obtain ⟨ws, hws, h⟩ := TcpClient_sendLoop_ok buf buf.length 0 this c hc hw (by omega) (by omega)
  refine ⟨ws, hws, ?_⟩
  simp only [TcpClient.sendn, Nat.sub_zero] at h ⊢
  rw [h]
  simp

theorem TcpClient_recvLoop_ok :
    ∀ (fuel : Nat) (buf : List Byte) (offset left : Nat) (this : TcpClient) (c : Conn)
      (xs rest : List Byte), this.conn = some c →
      noFail c.rscript = true → c.rx = xs ++ rest → xs.length = left →
      offset + left = buf.length → left ≤ fuel →
      ∃ rs, noFail rs = true ∧
        TcpClient.recvLoop fuel buf offset left this =
          some (none, buf.take offset ++ xs,
            { this with conn := some { c with rx := rest, rscript := rs } }) := by
  intro fuel
  induction fuel with
  | zero =>
    intro buf offset left this c xs rest hc hr hrx hxs hol hf
    have h0 : left = 0 := by omega
    subst h0
    have hx : xs = [] := List.length_eq_zero.mp hxs
    subst hx
    refine ⟨c.rscript, hr, ?_⟩
    have hbt : buf.take offset = buf := List.take_of_length_le (by omega)
    simp at hrx
    obtain ⟨⟨conn, _, _, _, _, _, _, _, _, _, _⟩, _⟩ := this
    simp only at hc
    subst hc
    simp [TcpClient.recvLoop, hbt, ← hrx]
  | succ fuel ih =>
    intro buf offset left this c xs rest hc hr hrx hxs hol hf
    by_cases hl : left > 0
    · have hrxlen : 0 < c.rx.length := by rw [hrx]; simp; omega
      obtain ⟨n, rs, hrd, hrs, hn1, hnl, hnr⟩ := Conn_Read_ok c left hr hl hrxlen
      have htake : c.rx.take n = xs.take n := by
        rw [hrx, List.take_append_of_le_length (by omega)]
      have hdrop : c.rx.drop n = xs.drop n ++ rest := by
        rw [hrx, List.drop_append_of_le_length (by omega)]
      have hcopy : copyAt buf offset (c.rx.take n ++ zeros (left - n)) =
          buf.take offset ++ (xs.take n ++ zeros (left - n)) := by
        rw [copyAt_exact _ _ _ (by simp [zeros_length, List.length_take]; omega), htake]
      obtain ⟨rs2, hrs2, hrec⟩ := ih (copyAt buf offset (c.rx.take n ++ zeros (left - n)))
        (offset + n) (left - n)
        { this with conn := some { c with rx := c.rx.drop n, rscript := rs } }
        { c with rx := c.rx.drop n, rscript := rs }
        (xs.drop n) rest rfl hrs hdrop (by simp; omega)
        (by rw [copyAt_length _ _ _ (by omega)]; omega) (by omega)
      refine ⟨rs2, hrs2, ?_⟩
      rw [TcpClient.recvLoop]
      simp only [hl, if_true, TcpClient.connRead, hc, hrd]
      rw [hrec, hcopy]
      have h1 : (buf.take offset ++ (xs.take n ++ zeros (left - n))).take (offset + n) =
          buf.take offset ++ xs.take n := by
        rw [← List.append_assoc, List.take_append_of_le_length
          (by simp [List.length_take]; omega)]
        exact List.take_of_length_le (by simp [List.length_take]; omega)
      rw [h1, List.append_assoc, List.take_append_drop]
    · have h0 : left = 0 := by omega
      subst h0
      have hx : xs = [] := List.length_eq_zero.mp hxs
      subst hx
      refine ⟨c.rscript, hr, ?_⟩
      have hbt : buf.take offset = buf := List.take_of_length_le (by omega)
      simp at hrx
      obtain ⟨⟨conn, _, _, _, _, _, _, _, _, _, _⟩, _⟩ := this
      simp only at hc
      subst hc
      simp [TcpClient.recvLoop, hbt, ← hrx]

theorem TcpClient_recvn_ok (this : TcpClient) (c : Conn) (buf xs rest : List Byte)
    (hc : this.conn = some c) (hr : noFail c.rscript = true) (hrx : c.rx = xs ++ rest)
    (hxs : xs.length = buf.length) :
    ∃ rs, noFail rs = true ∧
      this.recvn buf =
        some (none, xs, { this with conn := some { c with rx := rest, rscript := rs } }) := by
  obtain ⟨rs, hrs, h⟩ := TcpClient_recvLoop_ok buf.length buf 0 buf.length this c xs rest
    hc hr hrx hxs (by omega) (by omega)
  refine ⟨rs, hrs, ?_⟩
  simp only [TcpClient.recvn]
  rw [h]
  simp

/-! ## C2: the wire format of the three senders -/

/-- C2: for a payload `p` of at most 65535 bytes and no cipher, `StreamMessage.Send`,
`DataGramMessage.Send` and `TcpClient.SendMsg` (once `Connect` has succeeded), on a
connection whose writes do not fail, write exactly `FF FF`, the high and the low byte of
`len(p)` and then `p` itself: a frame of `4 + len(p)` bytes, which the stream senders
append to the stream and the datagram sender writes as one datagram. -/
theorem Send_wire_format (p : List Byte) (s : StreamMessage) (conn : Conn)
    (d : DataGramMessage) (pc : PacketConn) (this : TcpClient) (dial : Option Conn) (c : Conn)
    (hlen : p.length ≤ 65535)
    (hs : s.block = none) (hw : noFail conn.wscript = true)
    (hd : d.block = none) (hpw : (popFail pc.wscript).1 = false)
    (hc1 : (this.Connect dial).1 = none) (hc2 : (this.Connect dial).2.conn = some c)
    (hcw : noFail c.wscript = true) :
    (0xff :: 0xff :: Fin.ofNat (p.length / 256) :: Fin.ofNat (p.length % 256) :: p).length
        = 4 + p.length ∧
    (∃ conn', s.Send (some conn) p = some ((p.length : Int), none, p, some conn') ∧
      conn'.tx = conn.tx ++
        (0xff :: 0xff :: Fin.ofNat (p.length / 256) :: Fin.ofNat (p.length % 256) :: p)) ∧
    (∃ pc', d.Send (some pc) p = some ((p.length : Int), none, p, some pc') ∧
      pc'.tx = pc.tx ++
        [0xff :: 0xff :: Fin.ofNat (p.length / 256) :: Fin.ofNat (p.length % 256) :: p]) ∧
    (∃ this' c', this.SendMsg dial p = some (none, this') ∧ this'.conn = some c' ∧
      c'.tx = c.tx ++
        (0xff :: 0xff :: Fin.ofNat (p.length / 256) :: Fin.ofNat (p.length % 256) :: p)) := by
  have hf : frameBuf p.length p =
      0xff :: 0xff :: Fin.ofNat (p.length / 256) :: Fin.ofNat (p.length % 256) :: p :=
    frameBuf_wire p hlen
  refine ⟨by simp; omega, ?_, ?_, ?_⟩
  · obtain ⟨ws, _, h⟩ := StreamMessage_writeFull_ok s conn (frameBuf p.length p) hw
    refine ⟨{ conn with tx := conn.tx ++ frameBuf p.length p, wscript := ws }, ?_, ?_⟩
    · unfold StreamMessage.Send
      simp only [hs, h]
    · simp only [hf]
  · cases hpc : pc.wscript with
    | nil =>
      refine ⟨{ pc with tx := pc.tx ++ [frameBuf p.length p], wscript := [] }, ?_, ?_⟩
      · unfold DataGramMessage.Send
        simp only [hd, PacketConn.SetWriteDeadline, PacketConn.Write, popFail, hpc, ite_self]
      · simp only [hf]
    | cons e r =>
      rw [hpc] at hpw
      simp only [popFail] at hpw
      subst hpw
      refine ⟨{ pc with tx := pc.tx ++ [frameBuf p.length p], wscript := r }, ?_, ?_⟩
      · unfold DataGramMessage.Send
        simp only [hd, PacketConn.SetWriteDeadline, PacketConn.Write, popFail, hpc, ite_self]
      · simp only [hf]
  · rcases hcn : this.Connect dial with ⟨e, this1⟩
    rw [hcn] at hc1 hc2
    simp only at hc1 hc2
    subst hc1
    obtain ⟨ws, _, h⟩ := TcpClient_sendn_ok this1 c (frameBuf p.length p) hc2 hcw
    refine ⟨{ this1 with
        conn := some { c with tx := c.tx ++ frameBuf p.length p, wscript := ws },
        TxOkay := this1.TxOkay + 1 },
      { c with tx := c.tx ++ frameBuf p.length p, wscript := ws }, ?_, rfl, ?_⟩
    · unfold TcpClient.SendMsg
      simp only [hcn, h]
    · simp only [hf]

theorem Send_wire_format_witness :
    ((0xff : Byte) :: 0xff :: Fin.ofNat (3 / 256) :: Fin.ofNat (3 % 256) :: [7, 8, 9]).length
        = 4 + 3 ∧
    (∃ conn', StreamMessage.Send { timeout := 0, block := none }
        (some { raddr := "a", rx := [], tx := [1], rscript := [], wscript := [some 2, some 1] })
        [7, 8, 9] = some (((3 : Nat) : Int), none, [7, 8, 9], some conn') ∧
      conn'.tx = [1] ++
        (0xff :: 0xff :: Fin.ofNat (3 / 256) :: Fin.ofNat (3 % 256) :: [7, 8, 9])) ∧
    (∃ pc', DataGramMessage.Send { timeout := 3, block := none }
        (some { raddr := "b", rx := [], tx := [], rscript := [], wscript := [false] })
        [7, 8, 9] = some (((3 : Nat) : Int), none, [7, 8, 9], some pc') ∧
      pc'.tx = [] ++
        [0xff :: 0xff :: Fin.ofNat (3 / 256) :: Fin.ofNat (3 % 256) :: [7, 8, 9]]) ∧
    (∃ this' c', (NewTcpClient "c" 0 0).SendMsg
        (some { raddr := "c", rx := [], tx := [], rscript := [], wscript := [some 5] })
        [7, 8, 9] = some (none, this') ∧ this'.conn = some c' ∧
      c'.tx = [] ++
        (0xff :: 0xff :: Fin.ofNat (3 / 256) :: Fin.ofNat (3 % 256) :: [7, 8, 9])) :=
  Send_wire_format [7, 8, 9] { timeout := 0, block := none }
    { raddr := "a", rx := [], tx := [1], rscript := [], wscript := [some 2, some 1] }
    { timeout := 3, block := none }
    { raddr := "b", rx := [], tx := [], rscript := [], wscript := [false] }
    (NewTcpClient "c" 0 0)
    (some { raddr := "c", rx := [], tx := [], rscript := [], wscript := [some 5] })
    { raddr := "c", rx := [], tx := [], rscript := [], wscript := [some 5] }
    (by decide) rfl (by decide) rfl (by decide) rfl rfl (by decide)

/-! ## C4: invalid headers -/

/-- C4, as the code has it: on a stream whose first four bytes `a b c d` are an invalid
header (`a b` is not `FF FF`, or the big-endian length `c d` is below the min bound or above
the max bound), and whose reads do not fail, `StreamMessage.Receive(max, min)`, for a bound
with `0 ≤ max` and `4 + max` no more than `make` can allocate (`maxAlloc`), and
`TcpClient.RecvMsg`, for whatever bounds the client has, return an error, leave the caller's
buffer alone and have consumed exactly those four bytes; the error is wrong-magic whenever
the magic is wrong and wrong-size otherwise. -/
theorem Receive_bad_header (s : StreamMessage) (this : TcpClient) (conn cn : Conn)
    (a b c d : Byte) (rest data : List Byte) (max min : Int) :
    (0 ≤ max → (HSIZE : Int) + max ≤ maxAlloc →
      noFail conn.rscript = true → conn.rx = a :: b :: c :: d :: rest →
      ([a, b] ≠ [0xff, 0xff] ∨ (uint16 c d : Int) < min ∨ max < (uint16 c d : Int)) →
      ∃ conn', s.Receive (some conn) data max min =
          some (0, some (if [a, b] ≠ [0xff, 0xff] then Err.wrongMagic
                         else Err.wrongSize (uint16 c d)), data, some conn') ∧
        conn'.rx = rest) ∧
    (this.conn = some cn → noFail cn.rscript = true → cn.rx = a :: b :: c :: d :: rest →
      ([a, b] ≠ [0xff, 0xff] ∨ (uint16 c d : Int) < this.minsize ∨
        this.maxsize < (uint16 c d : Int)) →
      ∃ this' cn', this.RecvMsg data =
          some (-1, some (if [a, b] ≠ [0xff, 0xff] then Err.wrongMagic
                          else Err.wrongSize (uint16 c d)), data, this') ∧
        this'.conn = some cn' ∧ cn'.rx = rest ∧ this'.RxOkay = this.RxOkay) := by
  have hg2 : [a, b, c, d].getD 2 0 = c := rfl
  have hg3 : [a, b, c, d].getD 3 0 = d := rfl
  have ht2 : List.take 2 [a, b, c, d] = [a, b] := rfl
  constructor
  · intro hmax halloc hr hrx hbad
    have hmk : makeBytes (wrapInt ((GetHeaderLen : Int) + max)) = some (zeros (4 + max.toNat)) :=
      makeBytes_header max hmax halloc
    have hh : slice (zeros (4 + max.toNat)) 0 GetHeaderLen = some (zeros 4) := by
      simp [slice, GetHeaderLen, HSIZE, zeros, List.take_replicate]
    obtain ⟨rs1, _, hrd1⟩ := StreamMessage_readFull_ok s conn (zeros 4) [a, b, c, d] rest hr
      (by rw [hrx]; rfl) (by simp [zeros])
    refine ⟨{ conn with rx := rest, rscript := rs1 }, ?_, rfl⟩
    unfold StreamMessage.Receive
    simp only [hmk, hh, hrd1, ht2, hg2, hg3, GetMagic, MAGIC]
    by_cases hm : [a, b] = [0xff, 0xff]
    · have hsz : (uint16 c d : Int) > max ∨ (uint16 c d : Int) < min := by
        rcases hbad with h | h | h
        · exact absurd hm h
        · exact Or.inr h
        · exact Or.inl h
      simp [hm, hsz]
    · simp [hm]
  · intro hc hcr hcx hbad
    obtain ⟨rs1, _, hrd1⟩ := TcpClient_recvn_ok this cn (zeros HSIZE) [a, b, c, d] rest hc hcr
      (by rw [hcx]; rfl) (by simp [zeros, HSIZE])
    refine ⟨{ this with conn := some { cn with rx := rest, rscript := rs1 } },
      { cn with rx := rest, rscript := rs1 }, ?_, rfl, rfl, rfl⟩
    unfold TcpClient.RecvMsg
    have hok : this.IsOk = true := by simp [TcpClient.IsOk, hc]
    simp only [hok, hrd1, ht2, hg2, hg3, MAGIC]
    by_cases hm : [a, b] = [0xff, 0xff]
    · have hsz : (uint16 c d : Int) > this.maxsize ∨ (uint16 c d : Int) < this.minsize := by
        rcases hbad with h | h | h
        · exact absurd hm h
        · exact Or.inr h
        · exact Or.inl h
      simp [hm, hsz]
    · simp [hm]

theorem Receive_bad_header_witness :
    (∃ conn', StreamMessage.Receive { timeout := 1, block := none }
        (some { raddr := "p", rx := [0xff, 0xff, 0x07, 0xd0, 1, 2], tx := [],
                rscript := [some 1, some 1], wscript := [] })
        [5, 5] 1514 15 =
        some (0, some (if [(0xff : Byte), 0xff] ≠ [0xff, 0xff] then Err.wrongMagic
                       else Err.wrongSize (uint16 0x07 0xd0)), [5, 5], some conn') ∧
      conn'.rx = [1, 2]) ∧
    (∃ this' cn', (NewTcpClientFromConn
          { raddr := "p", rx := [0xff, 0xfe, 0x00, 0x10, 1, 2], tx := [],
            rscript := [some 3], wscript := [] } 0 0).RecvMsg [5, 5] =
        some (-1, some (if [(0xff : Byte), 0xfe] ≠ [0xff, 0xff] then Err.wrongMagic
                        else Err.wrongSize (uint16 0x00 0x10)), [5, 5], this') ∧
      this'.conn = some cn' ∧ cn'.rx = [1, 2] ∧
      this'.RxOkay = (NewTcpClientFromConn
          { raddr := "p", rx := [0xff, 0xfe, 0x00, 0x10, 1, 2], tx := [],
            rscript := [some 3], wscript := [] } 0 0).RxOkay) :=
  ⟨(Receive_bad_header { timeout := 1, block := none } (NewTcpClient "x" 0 0)
      { raddr := "p", rx := [0xff, 0xff, 0x07, 0xd0, 1, 2], tx := [],
        rscript := [some 1, some 1], wscript := [] }
      { raddr := "p", rx := [], tx := [], rscript := [], wscript := [] }
      0xff 0xff 0x07 0xd0 [1, 2] [5, 5] 1514 15).1
      (by decide) (by decide) (by decide) rfl (Or.inr (Or.inr (by decide))),
   (Receive_bad_header { timeout := 1, block := none }
      (NewTcpClientFromConn
        { raddr := "p", rx := [0xff, 0xfe, 0x00, 0x10, 1, 2], tx := [],
          rscript := [some 3], wscript := [] } 0 0)
      { raddr := "p", rx := [], tx := [], rscript := [], wscript := [] }
      { raddr := "p", rx := [0xff, 0xfe, 0x00, 0x10, 1, 2], tx := [],
        rscript := [some 3], wscript := [] }
      0xff 0xfe 0x00 0x10 [1, 2] [5, 5] 0 0).2
      rfl (by decide) rfl (Or.inl (by decide))⟩

/-- C4 fails as stated: with the bounds `max = -1`, `min = 0` every header is invalid (the
length field is above `max`), yet `StreamMessage.Receive(-1, 0)` on a stream that starts
with the header `FF FF 00 05` does not return an error after consuming four bytes: its
buffer `make([]byte, hl+max)` has three bytes and the slice `buf[:hl]` panics before a
byte is read.  `TcpClient.RecvMsg`, whose header buffer does not depend on the bounds,
returns the wrong-size error on the same stream with `maxsize = -1`. -/
theorem StreamMessage_Receive_negative_max :
    ((-1 : Int) < (uint16 0x00 0x05 : Int)) ∧
    StreamMessage.Receive { timeout := 0, block := none }
        (some { raddr := "p", rx := [0xff, 0xff, 0x00, 0x05, 1, 2, 3, 4, 5], tx := [],
                rscript := [], wscript := [] })
        [0] (-1) 0 = none ∧
    (((NewTcpClientFromConn
        { raddr := "p", rx := [0xff, 0xff, 0x00, 0x05, 1, 2, 3, 4, 5], tx := [],
          rscript := [], wscript := [] } 0 0).SetMaxSize (-1)).RecvMsg [0]).map
      (fun r => (r.1, r.2.1, r.2.2.1, r.2.2.2.conn.map Conn.rx)) =
      some (-1, some (Err.wrongSize 5), [0], some [1, 2, 3, 4, 5]) := by
  refine ⟨by decide, by decide, by decide⟩

/-! ## C5, C6: control messages -/

theorem NewFrameMessage_control (data : List Byte) (h : IsControl data = true)
    (h12 : 12 ≤ data.length) :
    NewFrameMessage data =
      some { control := true, action := (data.take 11).drop 6, params := data.drop 12,
             frame := [], rawData := data } := by
  have h11 : 6 ≤ 11 ∧ 11 ≤ data.length := ⟨by omega, by omega⟩
  simp [NewFrameMessage, FrameMessage.Decode, h, slice, sliceFrom, h11, h12]

theorem NewFrameMessage_data (data : List Byte) (h : IsControl data = false) :
    NewFrameMessage data =
      some { control := false, action := [], params := [], frame := data, rawData := data } := by
  simp [NewFrameMessage, FrameMessage.Decode, h]

theorem NewFrameMessage_short (data : List Byte) (h : IsControl data = true)
    (h12 : data.length < 12) : NewFrameMessage data = none := by
  have hs : sliceFrom data 12 = none := by simp [sliceFrom]; omega
  simp only [NewFrameMessage, FrameMessage.Decode, h, if_true, hs]
  cases slice data 6 11 <;> rfl

/-- C5, as the code has it: for a 5-byte action `a`, a 2-byte operator `o` and a body `b`,
`NewControlMessage(a, o, b).Encode()` is six zero bytes, the first FOUR bytes of `a`, the
two bytes of `o` and then `b`; `NewFrameMessage` of that payload is a control message whose
`CmdAndParams()` is the first four bytes of `a` followed by the first byte of `o`, and `b`. -/
theorem ControlMessage_Encode_Decode (a o b : List Byte) (ha : a.length = 5)
    (ho : o.length = 2) :
    (NewControlMessage a o b).Encode = some (zeros 6 ++ a.take 4 ++ o ++ b) ∧
    ∃ m, NewFrameMessage (zeros 6 ++ a.take 4 ++ o ++ b) = some m ∧
      m.IsControl = true ∧ m.CmdAndParams = (a.take 4 ++ o.take 1, b) := by
  rcases a with _ | ⟨a0, _ | ⟨a1, _ | ⟨a2, _ | ⟨a3, _ | ⟨a4, _ | ⟨a5, ar⟩⟩⟩⟩⟩⟩ <;>
    simp at ha
  rcases o with _ | ⟨o0, _ | ⟨o1, _ | ⟨o2, r⟩⟩⟩ <;> simp at ho
  constructor
  · simp [NewControlMessage, ControlMessage.Encode, slice, ZEROED, zeros, List.replicate]
  · have hc : IsControl (zeros 6 ++ [a0, a1, a2, a3, a4].take 4 ++ [o0, o1] ++ b) = true := by
      simp [IsControl, ZEROED, zeros, List.replicate]
    rw [NewFrameMessage_control _ hc (by simp [zeros])]
    refine ⟨_, rfl, rfl, ?_⟩
    simp [FrameMessage.CmdAndParams, zeros, List.replicate]

theorem ControlMessage_Encode_Decode_witness :
    (NewControlMessage [108, 111, 103, 105, 110] [61, 32] [123, 125]).Encode =
      some (zeros 6 ++ ([108, 111, 103, 105, 110] : List Byte).take 4 ++ [61, 32] ++ [123, 125]) ∧
    ∃ m, NewFrameMessage
        (zeros 6 ++ ([108, 111, 103, 105, 110] : List Byte).take 4 ++ [61, 32] ++ [123, 125]) =
          some m ∧
      m.IsControl = true ∧
      m.CmdAndParams =
        (([108, 111, 103, 105, 110] : List Byte).take 4 ++ ([61, 32] : List Byte).take 1,
          [123, 125]) :=
  ControlMessage_Encode_Decode [108, 111, 103, 105, 110] [61, 32] [123, 125] rfl rfl

/-- C5 fails as stated: for the action `login`, the operator `= ` and the body `{}` the
encoded payload carries `logi`, not `login`, after the six zero bytes, and decoding it
yields the action `logi=`, not `login`. -/
theorem ControlMessage_Encode_login :
    (NewControlMessage [108, 111, 103, 105, 110] [61, 32] [123, 125]).Encode =
      some [0, 0, 0, 0, 0, 0, 108, 111, 103, 105, 61, 32, 123, 125] ∧
    (NewControlMessage [108, 111, 103, 105, 110] [61, 32] [123, 125]).Encode ≠
      some ([0, 0, 0, 0, 0, 0] ++ [108, 111, 103, 105, 110] ++ [61, 32] ++ [123, 125]) ∧
    (NewFrameMessage [0, 0, 0, 0, 0, 0, 108, 111, 103, 105, 61, 32, 123, 125]).map
        FrameMessage.CmdAndParams = some ([108, 111, 103, 105, 61], [123, 125]) ∧
    (NewFrameMessage [0, 0, 0, 0, 0, 0, 108, 111, 103, 105, 61, 32, 123, 125]).map
        FrameMessage.CmdAndParams ≠ some ([108, 111, 103, 105, 110], [123, 125]) := by
  decide

/-- C6: a payload is recognized as a control message, that is `IsControl` returns true
for it and `NewFrameMessage(payload)` returns a message whose `IsControl()` is true, if and
only if its first six bytes are all zero and its length is at least 12.  (On a payload of
6 to 11 bytes that starts with six zero bytes `IsControl` alone returns true, but
`NewFrameMessage` does not return.) -/
theorem Control_recognized (data : List Byte) :
    (IsControl data = true ∧ ∃ m, NewFrameMessage data = some m ∧ m.IsControl = true) ↔
      ((∀ i, i < 6 → data[i]? = some 0) ∧ 12 ≤ data.length) := by
  constructor
  · rintro ⟨hc, m, hm, -⟩
    obtain ⟨-, hz⟩ := (IsControl_eq_true data).mp hc
    refine ⟨hz, ?_⟩
    by_contra h12
    rw [NewFrameMessage_short data hc (by omega)] at hm
    cases hm
  · rintro ⟨hz, h12⟩
    have hc : IsControl data = true := (IsControl_eq_true data).mpr ⟨by omega, hz⟩
    exact ⟨hc, _, NewFrameMessage_control data hc h12, rfl⟩

/-! ## C7: the hook chain -/

theorem initBridges_some (l : List BridgeConf) :
    ∀ (wk : List (String × Worker)) (br : List (String × Bridger)),
      ∃ wk' br', VSwitch.initBridges l (some wk) (some br) = some (some wk', some br') := by
  induction l with
  | nil => intro wk br; exact ⟨wk, br, rfl⟩
  | cons c rest ih =>
    intro wk br
    simp only [VSwitch.initBridges]
    exact ih _ _

theorem hookLoop_four {W : Type} (h1 h2 h3 h4 : Hook W) (client : TcpClient)
    (frame : FrameMessage) (w : W) (e1 e2 e3 e4 : Option Err) (c1 c2 c3 c4 : TcpClient)
    (w1 w2 w3 w4 : W)
    (r1 : h1 client frame w = (e1, c1, w1)) (r2 : h2 c1 frame w1 = (e2, c2, w2))
    (r3 : h3 c2 frame w2 = (e3, c3, w3)) (r4 : h4 c3 frame w3 = (e4, c4, w4)) :
    VSwitch.hookLoop [some h1, some h2, some h3, some h4] 0 client frame w [] =
      (if e1 ≠ none then (e1, c1, w1, [⟨0, frame, e1⟩])
       else if e2 ≠ none then (e2, c2, w2, [⟨0, frame, none⟩, ⟨1, frame, e2⟩])
       else if e3 ≠ none then
         (e3, c3, w3, [⟨0, frame, none⟩, ⟨1, frame, none⟩, ⟨2, frame, e3⟩])
       else (e4, c4, w4,
         [⟨0, frame, none⟩, ⟨1, frame, none⟩, ⟨2, frame, none⟩, ⟨3, frame, e4⟩])) := by
  cases e1 <;> cases e2 <;> cases e3 <;> cases e4 <;>
    simp [VSwitch.hookLoop, r1, r2, r3, r4]

theorem chain_four_summary {W : Type} (frame : FrameMessage) (e1 e2 e3 e4 : Option Err)
    (c1 c2 c3 c4 : TcpClient) (w1 w2 w3 w4 : W)
    (res : Option Err × TcpClient × W × List HookCall)
    (hres : res = (if e1 ≠ none then (e1, c1, w1, [⟨0, frame, e1⟩])
       else if e2 ≠ none then (e2, c2, w2, [⟨0, frame, none⟩, ⟨1, frame, e2⟩])
       else if e3 ≠ none then
         (e3, c3, w3, [⟨0, frame, none⟩, ⟨1, frame, none⟩, ⟨2, frame, e3⟩])
       else (e4, c4, w4,
         [⟨0, frame, none⟩, ⟨1, frame, none⟩, ⟨2, frame, none⟩, ⟨3, frame, e4⟩]))) :
    (res.1 = none ↔ e1 = none ∧ e2 = none ∧ e3 = none ∧ e4 = none) ∧
    res.1 = [e1, e2, e3, e4].findSome? id ∧
    res.2.2.2.map HookCall.index = List.range res.2.2.2.length ∧
    (∀ c ∈ res.2.2.2, c.frame = frame) ∧
    (∀ k, k < 4 →
      (k < res.2.2.2.length ↔ ∀ j, j < k → [e1, e2, e3, e4][j]? = some none)) := by
  subst hres
  cases e1 <;> cases e2 <;> cases e3 <;> cases e4 <;>
    (refine ⟨by simp, by simp [List.findSome?], by simp [List.range_succ], by simp, ?_⟩
     intro k hk
     interval_cases k <;>
       first
       | (constructor
          · intro _ j hj
            interval_cases j <;> simp
          · intro _
            simp
          done)
       | (constructor
          · intro h
            simp at h
          · intro h
            first
            | (have h' := h 0 (by omega)
               simp at h'
               done)
            | (have h' := h 1 (by omega)
               simp at h'
               done)
            | (have h' := h 2 (by omega)
               simp at h'
               done)
          done))

/-- C7, as the code has it: when `Initialize` runs on a switch whose maps are allocated (or
that has no bridge configured) it returns, and the hook list is then exactly Auth,
Neighbor, Request, Online in that order.  For every message that `NewFrameMessage` decodes
to a frame, `OnHook` on that list hands that same frame to the hooks in list order, each on
the client and state the hook before it left: with `e1 .. e4` what Auth, Neighbor, Request
and Online return when run in that way, `OnHook` stops at the first hook that returns an
error, returns that error with the client and state as that hook left them, and has called
exactly the hooks up to that one; it returns nil exactly when all four hooks returned nil,
and hook `k` is called exactly when every earlier hook returned no error. -/
theorem OnHook_chain {W : Type} (v : VSwitch W) (mk : AppCtors W) (client : TcpClient)
    (data : List Byte) (frame : FrameMessage) (w : W)
    (e1 e2 e3 e4 : Option Err) (c1 c2 c3 c4 : TcpClient) (w1 w2 w3 w4 : W)
    (hmaps : (v.worker.isSome = true ∧ v.bridge.isSome = true) ∨ v.Conf.Bridge = [])
    (hdec : NewFrameMessage data = some frame)
    (r1 : (mk.NewPointAuth v.Conf).OnFrame client frame w = (e1, c1, w1))
    (r2 : (mk.NewNeighbors v.Conf).OnFrame c1 frame w1 = (e2, c2, w2))
    (r3 : (mk.NewWithRequest v.Conf).OnFrame c2 frame w2 = (e3, c3, w3))
    (r4 : (mk.NewOnline v.Conf).OnFrame c3 frame w3 = (e4, c4, w4)) :
    ∃ v', v.Initialize mk = some v' ∧
      v'.hooks = [some (mk.NewPointAuth v.Conf).OnFrame, some (mk.NewNeighbors v.Conf).OnFrame,
                  some (mk.NewWithRequest v.Conf).OnFrame, some (mk.NewOnline v.Conf).OnFrame] ∧
      ∃ res, v'.OnHook client data w = some res ∧
        res = (if e1 ≠ none then (e1, c1, w1, [⟨0, frame, e1⟩])
       else if e2 ≠ none then (e2, c2, w2, [⟨0, frame, none⟩, ⟨1, frame, e2⟩])
       else if e3 ≠ none then
         (e3, c3, w3, [⟨0, frame, none⟩, ⟨1, frame, none⟩, ⟨2, frame, e3⟩])
       else (e4, c4, w4,
         [⟨0, frame, none⟩, ⟨1, frame, none⟩, ⟨2, frame, none⟩, ⟨3, frame, e4⟩])) ∧
        (res.1 = none ↔ e1 = none ∧ e2 = none ∧ e3 = none ∧ e4 = none) ∧
        res.1 = [e1, e2, e3, e4].findSome? id ∧
        res.2.2.2.map HookCall.index = List.range res.2.2.2.length ∧
        (∀ c ∈ res.2.2.2, c.frame = frame) ∧
        (∀ k, k < 4 →
          (k < res.2.2.2.length ↔ ∀ j, j < k → [e1, e2, e3, e4][j]? = some none)) := by
  have hib : ∃ wk br, VSwitch.initBridges v.Conf.Bridge v.worker v.bridge = some (wk, br) := by
    rcases hmaps with ⟨hw, hb⟩ | hnil
    · obtain ⟨wk, hwk⟩ := Option.isSome_iff_exists.mp hw
      obtain ⟨br, hbr⟩ := Option.isSome_iff_exists.mp hb
      obtain ⟨wk', br', h⟩ := initBridges_some v.Conf.Bridge wk br
      exact ⟨some wk', some br', by rw [hwk, hbr, h]⟩
    · exact ⟨v.worker, v.bridge, by rw [hnil]; rfl⟩
  obtain ⟨wk, br, hib⟩ := hib
  have hloop := hookLoop_four
    (mk.NewPointAuth v.Conf).OnFrame (mk.NewNeighbors v.Conf).OnFrame
    (mk.NewWithRequest v.Conf).OnFrame (mk.NewOnline v.Conf).OnFrame client frame w
    e1 e2 e3 e4 c1 c2 c3 c4 w1 w2 w3 w4 r1 r2 r3 r4
  have hinit : ∃ v', v.Initialize mk = some v' ∧
      v'.hooks = [some (mk.NewPointAuth v.Conf).OnFrame, some (mk.NewNeighbors v.Conf).OnFrame,
                  some (mk.NewWithRequest v.Conf).OnFrame, some (mk.NewOnline v.Conf).OnFrame] := by
    unfold VSwitch.Initialize
    by_cases hh : v.Conf.HttpListen ≠ ""
    · simp only [if_pos hh, hib]
      exact ⟨_, rfl, rfl⟩
    · simp only [if_neg hh, hib]
      exact ⟨_, rfl, rfl⟩
  obtain ⟨v', hv', hhooks⟩ := hinit
  refine ⟨v', hv', hhooks, _, ?_, rfl,
    chain_four_summary frame e1 e2 e3 e4 c1 c2 c3 c4 w1 w2 w3 w4 _ rfl⟩
  simp only [VSwitch.OnHook, hdec, hhooks]
  exact congrArg some hloop

theorem OnHook_chain_witness :
    ∃ v', (NewVSwitch exampleConf 0).Initialize exampleCtors = some v' ∧
      v'.hooks = [some (exampleCtors.NewPointAuth exampleConf).OnFrame,
                  some (exampleCtors.NewNeighbors exampleConf).OnFrame,
                  some (exampleCtors.NewWithRequest exampleConf).OnFrame,
                  some (exampleCtors.NewOnline exampleConf).OnFrame] ∧
      ∃ res, v'.OnHook (NewTcpClient "point" 0 0) [1, 2, 3, 4, 5, 6, 7, 8, 9, 10, 11, 12, 13, 14, 15] 0 = some res ∧
        res = (if (none : Option Err) ≠ none then
           ((none : Option Err), (NewTcpClient "point" 0 0), 1, [⟨0, { control := false, action := [], params := [], frame := [1, 2, 3, 4, 5, 6, 7, 8, 9, 10, 11, 12, 13, 14, 15], rawData := [1, 2, 3, 4, 5, 6, 7, 8, 9, 10, 11, 12, 13, 14, 15] }, none⟩])
         else if (none : Option Err) ≠ none then
           (none, (NewTcpClient "point" 0 0), 11, [⟨0, { control := false, action := [], params := [], frame := [1, 2, 3, 4, 5, 6, 7, 8, 9, 10, 11, 12, 13, 14, 15], rawData := [1, 2, 3, 4, 5, 6, 7, 8, 9, 10, 11, 12, 13, 14, 15] }, none⟩, ⟨1, { control := false, action := [], params := [], frame := [1, 2, 3, 4, 5, 6, 7, 8, 9, 10, 11, 12, 13, 14, 15], rawData := [1, 2, 3, 4, 5, 6, 7, 8, 9, 10, 11, 12, 13, 14, 15] }, none⟩])
         else if some (Err.app 7) ≠ none then
           (some (Err.app 7), (NewTcpClient "point" 0 0), 111,
             [⟨0, { control := false, action := [], params := [], frame := [1, 2, 3, 4, 5, 6, 7, 8, 9, 10, 11, 12, 13, 14, 15], rawData := [1, 2, 3, 4, 5, 6, 7, 8, 9, 10, 11, 12, 13, 14, 15] }, none⟩, ⟨1, { control := false, action := [], params := [], frame := [1, 2, 3, 4, 5, 6, 7, 8, 9, 10, 11, 12, 13, 14, 15], rawData := [1, 2, 3, 4, 5, 6, 7, 8, 9, 10, 11, 12, 13, 14, 15] }, none⟩, ⟨2, { control := false, action := [], params := [], frame := [1, 2, 3, 4, 5, 6, 7, 8, 9, 10, 11, 12, 13, 14, 15], rawData := [1, 2, 3, 4, 5, 6, 7, 8, 9, 10, 11, 12, 13, 14, 15] }, some (Err.app 7)⟩])
         else (none, (NewTcpClient "point" 0 0), 1111,
           [⟨0, { control := false, action := [], params := [], frame := [1, 2, 3, 4, 5, 6, 7, 8, 9, 10, 11, 12, 13, 14, 15], rawData := [1, 2, 3, 4, 5, 6, 7, 8, 9, 10, 11, 12, 13, 14, 15] }, none⟩, ⟨1, { control := false, action := [], params := [], frame := [1, 2, 3, 4, 5, 6, 7, 8, 9, 10, 11, 12, 13, 14, 15], rawData := [1, 2, 3, 4, 5, 6, 7, 8, 9, 10, 11, 12, 13, 14, 15] }, none⟩, ⟨2, { control := false, action := [], params := [], frame := [1, 2, 3, 4, 5, 6, 7, 8, 9, 10, 11, 12, 13, 14, 15], rawData := [1, 2, 3, 4, 5, 6, 7, 8, 9, 10, 11, 12, 13, 14, 15] }, none⟩, ⟨3, { control := false, action := [], params := [], frame := [1, 2, 3, 4, 5, 6, 7, 8, 9, 10, 11, 12, 13, 14, 15], rawData := [1, 2, 3, 4, 5, 6, 7, 8, 9, 10, 11, 12, 13, 14, 15] }, none⟩])) ∧
        (res.1 = none ↔ (none : Option Err) = none ∧ (none : Option Err) = none ∧
          some (Err.app 7) = none ∧ (none : Option Err) = none) ∧
        res.1 = [none, none, some (Err.app 7), none].findSome? id ∧
        res.2.2.2.map HookCall.index = List.range res.2.2.2.length ∧
        (∀ c ∈ res.2.2.2, c.frame = { control := false, action := [], params := [], frame := [1, 2, 3, 4, 5, 6, 7, 8, 9, 10, 11, 12, 13, 14, 15], rawData := [1, 2, 3, 4, 5, 6, 7, 8, 9, 10, 11, 12, 13, 14, 15] }) ∧
        (∀ k, k < 4 →
          (k < res.2.2.2.length ↔
            ∀ j, j < k → [none, none, some (Err.app 7), none][j]? = some none)) :=
  OnHook_chain (NewVSwitch exampleConf 0) exampleCtors (NewTcpClient "point" 0 0) [1, 2, 3, 4, 5, 6, 7, 8, 9, 10, 11, 12, 13, 14, 15] { control := false, action := [], params := [], frame := [1, 2, 3, 4, 5, 6, 7, 8, 9, 10, 11, 12, 13, 14, 15], rawData := [1, 2, 3, 4, 5, 6, 7, 8, 9, 10, 11, 12, 13, 14, 15] } 0
    none none (some (Err.app 7)) none
    (NewTcpClient "point" 0 0) (NewTcpClient "point" 0 0) (NewTcpClient "point" 0 0) (NewTcpClient "point" 0 0) 1 11 111 1111
    (Or.inl ⟨rfl, rfl⟩) (by decide) rfl rfl rfl rfl

/-- C7 fails as stated: on the message of six zero bytes `NewFrameMessage` panics (the
payload is classified as control and `rawData[12:]` is out of range), so `OnHook` on the
initialized switch does not return and calls none of its four hooks, although no earlier
hook has returned an error. -/
theorem OnHook_six_zeros :
    ∃ v', (NewVSwitch exampleConf 0).Initialize exampleCtors = some v' ∧
      v'.hooks.length = 4 ∧
      NewFrameMessage [0, 0, 0, 0, 0, 0] = none ∧
      v'.OnHook (NewTcpClient "point" 0 0) [0, 0, 0, 0, 0, 0] (0 : Nat) = none :=
  ⟨_, rfl, rfl, by decide, rfl⟩

/-! ## C8: the datagram round trip with a cipher -/

/-- C8 at a failing input: with the cipher that adds one to every byte, `Send([1, 2, 3])`
writes the datagram `FF FF 00 03 02 03 04` (header in clear, payload encrypted), and
`Receive(16, 1)` on that datagram returns `(3, nil)` but hands over `[3, 4, 5]`, the payload
encrypted once more, not the plaintext `[1, 2, 3]`: `Receive` calls `Encrypt` where
`StreamMessage.Receive` calls `Decrypt`. -/
theorem DataGramMessage_Receive_encrypts :
    DataGramMessage.Send { timeout := 0, block := some shiftCrypt }
        (some { raddr := "p", rx := [], tx := [], rscript := [], wscript := [] }) [1, 2, 3] =
      some (3, none, [2, 3, 4],
        some { raddr := "p", rx := [], tx := [[0xff, 0xff, 0, 3, 2, 3, 4]],
               rscript := [], wscript := [] }) ∧
    DataGramMessage.Receive { timeout := 0, block := some shiftCrypt }
        (some { raddr := "p", rx := [[0xff, 0xff, 0, 3, 2, 3, 4]], tx := [],
                rscript := [], wscript := [] })
        [0, 0, 0] 16 1 =
      some (3, none, [3, 4, 5],
        some { raddr := "p", rx := [], tx := [], rscript := [], wscript := [] }) ∧
    shiftCrypt.Decrypt (shiftCrypt.Encrypt [1, 2, 3]) = [1, 2, 3] ∧
    ([3, 4, 5] : List Byte) ≠ [1, 2, 3] := by
  refine ⟨by decide, by decide, by decide, by decide⟩

/-! ## C9: the TcpClient round trip -/

theorem TcpClient_RecvMsg_frame (this : TcpClient) (cn : Conn) (q data rest : List Byte)
    (hc : this.conn = some cn) (hmin : this.minsize ≤ q.length)
    (hmax : (q.length : Int) ≤ this.maxsize)
    (hlen : q.length ≤ 65535) (hr : noFail cn.rscript = true)
    (hrx : cn.rx = ([(0xff : Byte), 0xff] ++ putUint16 q.length ++ q) ++ rest) :
    ∃ rs, noFail rs = true ∧
      this.RecvMsg data =
        some ((q.length : Int), none, copy data q,
          { this with conn := some { cn with rx := rest, rscript := rs },
                      RxOkay := this.RxOkay + 1 }) := by
  obtain ⟨hi, lo, hp⟩ : ∃ hi lo, putUint16 q.length = [hi, lo] := ⟨_, _, rfl⟩
  have hsz : uint16 hi lo = q.length := uint16_putUint16 _ hlen hi lo hp
  have hrx1 : cn.rx = [0xff, 0xff, hi, lo] ++ (q ++ rest) := by
    rw [hrx, hp]; simp
  obtain ⟨rs1, hrs1, hrd1⟩ := TcpClient_recvn_ok this cn (zeros HSIZE) [0xff, 0xff, hi, lo]
    (q ++ rest) hc hr hrx1 (by simp [zeros, HSIZE])
  obtain ⟨rs2, hrs2, hrd2⟩ := TcpClient_recvn_ok
    { this with conn := some { cn with rx := q ++ rest, rscript := rs1 } }
    { cn with rx := q ++ rest, rscript := rs1 } (zeros q.length) q rest rfl hrs1 rfl
    (by simp [zeros])
  refine ⟨rs2, hrs2, ?_⟩
  have hok : this.IsOk = true := by simp [TcpClient.IsOk, hc]
  have hmagic : ¬ (List.take 2 [(0xff : Byte), 0xff, hi, lo] ≠ MAGIC) := by
    simp [MAGIC]
  have hg2 : [(0xff : Byte), 0xff, hi, lo].getD 2 0 = hi := rfl
  have hg3 : [(0xff : Byte), 0xff, hi, lo].getD 3 0 = lo := rfl
  have hrange : ¬ ((q.length : Int) > this.maxsize ∨ (q.length : Int) < this.minsize) := by
    omega
  unfold TcpClient.RecvMsg
  simp only [hok, hrd1, hmagic, hg2, hg3, hsz, hrange, hrd2]
  simp

/-- C9, as the code has it: for every payload `p` of length `L` with 15 ≤ L ≤ 1514, on
connections whose calls do not fail, `SendMsg(p)` on a client made by `NewTcpClient`
connects, writes one frame and counts it, and `RecvMsg` on a client made by
`NewTcpClientFromConn` whose stream starts with that frame returns `(L, nil)`, copies `p`
into the caller's buffer and counts it. -/
theorem TcpClient_roundtrip (p data rest : List Byte) (addr : String) (verbose now : Int)
    (cs cr : Conn) (h15 : 15 ≤ p.length) (h1514 : p.length ≤ 1514)
    (hw : noFail cs.wscript = true) (hr : noFail cr.rscript = true) :
    ∃ snd cs' frame,
      (NewTcpClient addr verbose now).SendMsg (some cs) p = some (none, snd) ∧
      snd.conn = some cs' ∧ cs'.tx = cs.tx ++ frame ∧ snd.TxOkay = 1 ∧
      (cr.rx = frame ++ rest →
        ∃ rcv cr', (NewTcpClientFromConn cr verbose now).RecvMsg data =
            some ((p.length : Int), none, copy data p, rcv) ∧
          rcv.conn = some cr' ∧ cr'.rx = rest ∧ rcv.RxOkay = 1 ∧
          (p.length ≤ data.length → (copy data p).take p.length = p)) := by
  obtain ⟨ws, _, hsend⟩ := TcpClient_sendn_ok
    ((NewTcpClient addr verbose now).Connect (some cs)).2 cs (frameBuf p.length p) rfl hw
  refine ⟨{ ((NewTcpClient addr verbose now).Connect (some cs)).2 with
      conn := some { cs with tx := cs.tx ++ frameBuf p.length p, wscript := ws },
      TxOkay := ((NewTcpClient addr verbose now).Connect (some cs)).2.TxOkay + 1 },
    { cs with tx := cs.tx ++ frameBuf p.length p, wscript := ws }, frameBuf p.length p,
    ?_, rfl, rfl, rfl, ?_⟩
  · unfold TcpClient.SendMsg
    have hcn : (NewTcpClient addr verbose now).Connect (some cs) =
        (none, ((NewTcpClient addr verbose now).Connect (some cs)).2) := rfl
    rw [hcn]
    simp only [hsend]
  · intro hrx
    rw [frameBuf_eq p p.length rfl] at hrx
    obtain ⟨rs, _, hrecv⟩ := TcpClient_RecvMsg_frame (NewTcpClientFromConn cr verbose now) cr p
      data rest rfl (by simp [NewTcpClientFromConn]; omega)
      (by simp [NewTcpClientFromConn]; omega) (by omega) hr hrx
    refine ⟨_, { cr with rx := rest, rscript := rs }, hrecv, rfl, rfl, rfl, ?_⟩
    intro hd
    rw [copy_front _ _ hd, List.take_left']
    rfl

theorem TcpClient_roundtrip_witness :
    ∃ snd cs' frame,
      (NewTcpClient "sw:10002" 0 0).SendMsg
          (some { raddr := "sw:10002", rx := [], tx := [], rscript := [], wscript := [some 3] })
          [1, 2, 3, 4, 5, 6, 7, 8, 9, 10, 11, 12, 13, 14, 15] = some (none, snd) ∧
      snd.conn = some cs' ∧ cs'.tx = [] ++ frame ∧ snd.TxOkay = 1 ∧
      (([0xff, 0xff, 0, 15, 1, 2, 3, 4, 5, 6, 7, 8, 9, 10, 11, 12, 13, 14, 15] : List Byte) =
          frame ++ [] →
        ∃ rcv cr', (NewTcpClientFromConn
              { raddr := "pt", rx := [0xff, 0xff, 0, 15, 1, 2, 3, 4, 5, 6, 7, 8, 9, 10, 11, 12, 13, 14, 15],
                tx := [], rscript := [some 2, some 7], wscript := [] } 0 0).RecvMsg (zeros 20) =
            some (((15 : Nat) : Int), none,
              copy (zeros 20) [1, 2, 3, 4, 5, 6, 7, 8, 9, 10, 11, 12, 13, 14, 15], rcv) ∧
          rcv.conn = some cr' ∧ cr'.rx = [] ∧ rcv.RxOkay = 1 ∧
          (15 ≤ (zeros 20).length →
            (copy (zeros 20) ([1, 2, 3, 4, 5, 6, 7, 8, 9, 10, 11, 12, 13, 14, 15] : List Byte)).take 15 =
              [1, 2, 3, 4, 5, 6, 7, 8, 9, 10, 11, 12, 13, 14, 15])) :=
  TcpClient_roundtrip [1, 2, 3, 4, 5, 6, 7, 8, 9, 10, 11, 12, 13, 14, 15] (zeros 20) []
    "sw:10002" 0 0
    { raddr := "sw:10002", rx := [], tx := [], rscript := [], wscript := [some 3] }
    { raddr := "pt", rx := [0xff, 0xff, 0, 15, 1, 2, 3, 4, 5, 6, 7, 8, 9, 10, 11, 12, 13, 14, 15],
      tx := [], rscript := [some 2, some 7], wscript := [] }
    (by decide) (by decide) (by decide) (by decide)

/-- C9 fails as stated: the empty payload (L = 0) is written as the frame `FF FF 00 00`,
and `RecvMsg` on a client with the default bounds rejects that frame with the wrong-size
error, because the default `minsize` is 15. -/
theorem TcpClient_RecvMsg_empty :
    ((NewTcpClient "sw:10002" 0 0).SendMsg
        (some { raddr := "sw:10002", rx := [], tx := [], rscript := [], wscript := [] }) []).map
      (fun r => (r.1, r.2.conn.map Conn.tx)) = some (none, some [0xff, 0xff, 0, 0]) ∧
    ((NewTcpClientFromConn
        { raddr := "pt", rx := [0xff, 0xff, 0, 0], tx := [], rscript := [], wscript := [] }
        0 0).RecvMsg [9, 9]).map (fun r => (r.1, r.2.1, r.2.2.1)) =
      some (-1, some (Err.wrongSize 0), [9, 9]) ∧
    (NewTcpClientFromConn
        { raddr := "pt", rx := [0xff, 0xff, 0, 0], tx := [], rscript := [], wscript := [] }
        0 0).minsize = 15 := by
  decide

/-! ## C10: the counters of SendMsg -/

theorem Conn_Write_cases (c : Conn) (b : List Byte) :
    (∃ c', c.Write b = (0, some Err.io, c')) ∨
    (∃ n c', c.Write b = (n, none, c') ∧ (0 < b.length → 1 ≤ n) ∧ n ≤ b.length) := by
  unfold Conn.Write popEv
  cases c.wscript with
  | nil =>
    right
    exact ⟨_, _, rfl, by omega, by omega⟩
  | cons e r =>
    cases e with
    | none =>
      left
      exact ⟨_, rfl⟩
    | some k =>
      right
      exact ⟨_, _, rfl, by omega, by omega⟩

theorem TcpClient_sendLoop_total (buf : List Byte) :
    ∀ (fuel offset : Nat) (this : TcpClient) (c : Conn), this.conn = some c →
      buf.length - offset ≤ fuel →
      ∃ err this', TcpClient.sendLoop buf buf.length fuel offset (buf.length - offset) this =
          some (err, this') ∧ sameCounters this' this ∧ this'.conn.isSome = true ∧
          (err = none ∨ err = some Err.io) := by
  intro fuel
  induction fuel with
  | zero =>
    intro offset this c hc hf
    have h0 : buf.length - offset = 0 := by omega
    exact ⟨none, this, by simp [TcpClient.sendLoop, h0], ⟨rfl, rfl, rfl, rfl, rfl⟩,
      by simp [hc], Or.inl rfl⟩
  | succ fuel ih =>
    intro offset this c hc hf
    by_cases hl : buf.length - offset > 0
    · rw [TcpClient.sendLoop]
      simp only [hl, if_true]
      rcases Conn_Write_cases c (buf.drop offset) with ⟨c', hw⟩ | ⟨n, c', hw, hn1, hn⟩
      · exact ⟨some Err.io, { this with conn := some c' },
          by simp [TcpClient.connWrite, hc, hw], ⟨rfl, rfl, rfl, rfl, rfl⟩, rfl, Or.inr rfl⟩
      · have hlen : (buf.drop offset).length = buf.length - offset := by simp
        rw [hlen] at hn1 hn
        have hn1 := hn1 hl
        obtain ⟨err, this', hrec, hsame, hcs, herr⟩ :=
          ih (offset + n) { this with conn := some c' } c' rfl (by omega)
        refine ⟨err, this', ?_, hsame, hcs, herr⟩
        simp only [TcpClient.connWrite, hc, hw]
        exact hrec
    · have h0 : buf.length - offset = 0 := by omega
      exact ⟨none, this, by simp [TcpClient.sendLoop, h0], ⟨rfl, rfl, rfl, rfl, rfl⟩,
        by simp [hc], Or.inl rfl⟩

theorem TcpClient_sendn_total (this : TcpClient) (c : Conn) (buf : List Byte)
    (hc : this.conn = some c) :
    ∃ err this', this.sendn buf = some (err, this') ∧ sameCounters this' this ∧
      this'.conn.isSome = true ∧ (err = none ∨ err = some Err.io) := by
  obtain ⟨err, this', h, hs, hcs, he⟩ :=
    TcpClient_sendLoop_total buf buf.length 0 this c hc (by omega)
  refine ⟨err, this', ?_, hs, hcs, he⟩
  simpa [TcpClient.sendn] using h

theorem TcpClient_sendn_first_fails (this : TcpClient) (c : Conn) (buf : List Byte)
    (r : List (Option Nat)) (hc : this.conn = some c) (hw : c.wscript = none :: r)
    (hb : 0 < buf.length) :
    ∃ this', this.sendn buf = some (some Err.io, this') := by
  obtain ⟨k, hk⟩ : ∃ k, buf.length = k + 1 := ⟨buf.length - 1, by omega⟩
  refine ⟨{ this with conn := some { c with wscript := r } }, ?_⟩
  simp [TcpClient.sendn, hk, TcpClient.sendLoop, TcpClient.connWrite, hc, Conn.Write, popEv, hw]

theorem TcpClient_Connect_fails (this : TcpClient) (hc : this.conn = none) :
    this.Connect none = (some Err.dial, this) := by
  obtain ⟨⟨conn, _, _, _, _, _, _, _, _, _, _⟩, _⟩ := this
  simp only at hc
  subst hc
  rfl

theorem TcpClient_Connect_passes (this : TcpClient) (dial : Option Conn)
    (hcb : ∀ f, this.onConnected = some f → keepsCounters f)
    (hp : this.conn.isSome = true ∨ dial.isSome = true) :
    (this.Connect dial).1 = none ∧ sameCounters (this.Connect dial).2 this ∧
      (this.Connect dial).2.conn.isSome = true := by
  unfold TcpClient.Connect
  cases hc : this.conn with
  | some c => exact ⟨rfl, ⟨rfl, rfl, rfl, rfl, rfl⟩, by simp [hc]⟩
  | none =>
    cases dial with
    | none =>
      rw [hc] at hp
      simp at hp
    | some c =>
      cases hf : this.onConnected with
      | none =>
        simp only [hf]
        exact ⟨trivial, ⟨rfl, rfl, rfl, rfl, hf.symm⟩, rfl⟩
      | some f =>
        simp only [hf]
        obtain ⟨h1, h2, h3, h4, h5⟩ := hcb f hf
          { this.toTcpClientData with conn := some c, Status := CL_CONNECTED }
        exact ⟨trivial, ⟨h1, h2, h3, h4, hf.symm⟩, h5 rfl⟩

/-- One call of `SendMsg` on a client whose callback is harmless.  A call on a client with
no connection whose dial fails returns the dial error and leaves the client as it is.
Every other call returns, with no error or with the write error, keeps a connection, adds
one to `TxOkay` when it returns no error and one to `TxError` when it returns an error, and
leaves the other counters alone; it returns no error when no write on its connection
fails, and the write error when the first write fails. -/
theorem TcpClient_SendMsg_step (this : TcpClient) (dial : Option Conn) (data : List Byte)
    (hcb : ∀ f, this.onConnected = some f → keepsCounters f) :
    (this.conn = none → dial = none → this.SendMsg dial data = some (some Err.dial, this)) ∧
    (this.conn.isSome = true ∨ dial.isSome = true →
      ∃ err this', this.SendMsg dial data = some (err, this') ∧
        (err = none ∨ err = some Err.io) ∧
        this'.conn.isSome = true ∧ this'.onConnected = this.onConnected ∧
        this'.RxOkay = this.RxOkay ∧ this'.Droped = this.Droped ∧
        this'.TxOkay = this.TxOkay + (if err = none then 1 else 0) ∧
        this'.TxError = this.TxError + (if err = none then 0 else 1) ∧
        (∀ c, (this.Connect dial).2.conn = some c → noFail c.wscript = true → err = none) ∧
        (∀ c r, (this.Connect dial).2.conn = some c → c.wscript = none :: r →
          err = some Err.io)) := by
  constructor
  · intro hc hd
    subst hd
    unfold TcpClient.SendMsg
    rw [TcpClient_Connect_fails this hc]
  · intro hp
    obtain ⟨hnone, ⟨h1, h2, h3, h4, h5⟩, hsome⟩ := TcpClient_Connect_passes this dial hcb hp
    unfold TcpClient.SendMsg
    rcases hcn : this.Connect dial with ⟨e, this1⟩
    rw [hcn] at hnone h1 h2 h3 h4 h5 hsome
    simp only at hnone h1 h2 h3 h4 h5 hsome
    subst hnone
    obtain ⟨c1, hc1⟩ := Option.isSome_iff_exists.mp hsome
    have hflen : 0 < (frameBuf data.length data).length := by
      rw [frameBuf_eq data data.length rfl]
      simp [putUint16]
    obtain ⟨err, this2, hs, ⟨g1, g2, g3, g4, g5⟩, hcs, herr⟩ :=
      TcpClient_sendn_total this1 c1 (frameBuf data.length data) hc1
    have hok : ∀ c, this1.conn = some c → noFail c.wscript = true → err = none := by
      intro c hc hw
      obtain ⟨ws, _, hsend⟩ := TcpClient_sendn_ok this1 c (frameBuf data.length data) hc hw
      rw [hsend] at hs
      simp only [Option.some.injEq, Prod.mk.injEq] at hs
      exact hs.1.symm
    have hko : ∀ c r, this1.conn = some c → c.wscript = none :: r → err = some Err.io := by
      intro c r hc hw
      obtain ⟨t, hsend⟩ :=
        TcpClient_sendn_first_fails this1 c (frameBuf data.length data) r hc hw hflen
      rw [hsend] at hs
      simp only [Option.some.injEq, Prod.mk.injEq] at hs
      exact hs.1.symm
    simp only [hs]
    rcases herr with rfl | rfl
    · refine ⟨none, _, rfl, Or.inl rfl, ?_, ?_, ?_, ?_, ?_, ?_, hok, hko⟩
      · exact hcs
      · simp only [g5, h5]
      · simp only [g2, h2]
      · simp only [g4, h4]
      · simp only [g1, h1, if_true]
      · simp only [g3, h3, if_true]
        omega
    · refine ⟨some Err.io, _, rfl, Or.inr rfl, ?_, ?_, ?_, ?_, ?_, ?_, hok, hko⟩
      · exact hcs
      · simp only [g5, h5]
      · simp only [g2, h2]
      · simp only [g4, h4]
      · simp only [g1, h1]
        simp
      · simp only [g3, h3]
        simp

theorem TcpClient_sendAll_counters (calls : List (Option Conn × List Byte)) :
    ∀ (this : TcpClient), (∀ f, this.onConnected = some f → keepsCounters f) →
      ∃ errs this', this.sendAll calls = some (errs, this') ∧
        errs.length = calls.length ∧ this'.onConnected = this.onConnected ∧
        this.TxOkay ≤ this'.TxOkay ∧ this.TxError ≤ this'.TxError ∧
        this'.RxOkay = this.RxOkay ∧ this'.Droped = this.Droped ∧
        this'.TxOkay + this'.TxError + this'.Droped =
          this.TxOkay + this.TxError + this.Droped + attempts this.conn.isSome calls ∧
        this'.TxOkay = this.TxOkay + errs.count none ∧
        errs.count (some Err.dial) + attempts this.conn.isSome calls = calls.length := by
  induction calls with
  | nil =>
    intro this _
    exact ⟨[], this, rfl, rfl, rfl, Nat.le_refl _, Nat.le_refl _, rfl, rfl, by simp [attempts],
      by simp, by simp [attempts]⟩
  | cons call rest ih =>
    intro this hcb
    obtain ⟨dial, data⟩ := call
    obtain ⟨hfail, hpass⟩ := TcpClient_SendMsg_step this dial data hcb
    by_cases hp : this.conn.isSome = true ∨ dial.isSome = true
    · obtain ⟨err, this1, hstep, herr, hcs, hon, hrx, hdr, htx, hte, -, -⟩ := hpass hp
      obtain ⟨errs, this2, hall, hlen, hon2, htx2, hte2, hrx2, hdr2, hsum2, hok2, hd2⟩ :=
        ih this1 (fun f hf => hcb f (by rw [← hon]; exact hf))
      rw [hcs] at hsum2 hd2
      have hatt : attempts this.conn.isSome ((dial, data) :: rest) = attempts true rest + 1 := by
        simp only [attempts, hp, if_true]
      refine ⟨err :: errs, this2, ?_, ?_, ?_, ?_, ?_, ?_, ?_, ?_, ?_, ?_⟩
      · simp only [TcpClient.sendAll, hstep, hall]
      · simp [hlen]
      · rw [hon2, hon]
      · omega
      · omega
      · rw [hrx2, hrx]
      · rw [hdr2, hdr]
      · rw [hatt]
        rcases herr with rfl | rfl
        · simp only [if_true] at htx hte
          omega
        · simp only [reduceCtorEq, if_false] at htx hte
          omega
      · rcases herr with rfl | rfl
        · simp only [if_true] at htx
          rw [List.count_cons_self]
          omega
        · simp only [reduceCtorEq, if_false] at htx
          rw [List.count_cons_of_ne (by simp)]
          omega
      · rw [hatt]
        rcases herr with rfl | rfl
        · rw [List.count_cons_of_ne (by simp)]
          simp only [List.length_cons]
          omega
        · rw [List.count_cons_of_ne (by simp)]
          simp only [List.length_cons]
          omega
    · have hc : this.conn = none := by
        cases h : this.conn with
        | none => rfl
        | some c => exact absurd (Or.inl (by simp [h])) hp
      have hd : dial = none := by
        cases h : dial with
        | none => rfl
        | some c => exact absurd (Or.inr (by simp [h])) hp
      have hstep := hfail hc hd
      obtain ⟨errs, this2, hall, hlen, hon2, htx2, hte2, hrx2, hdr2, hsum2, hok2, hd2⟩ :=
        ih this hcb
      have hatt : attempts this.conn.isSome ((dial, data) :: rest) =
          attempts this.conn.isSome rest := by
        rw [hc] at hp ⊢
        simp only [attempts, hd]
        simp
      refine ⟨some Err.dial :: errs, this2, ?_, ?_, hon2, htx2, hte2, hrx2, hdr2, ?_, ?_, ?_⟩
      · simp only [TcpClient.sendAll, hstep, hall]
      · simp [hlen]
      · rw [hatt]
        exact hsum2
      · rw [List.count_cons_of_ne (by simp)]
        exact hok2
      · rw [hatt, List.count_cons_self]
        simp only [List.length_cons]
        omega

/-- C10, as the code has it: on a client whose connect callback (if any) leaves the
counters and the connection alone, every sequence of `SendMsg` calls returns, call by call;
no counter ever decreases (`RxOkay` and `Droped` do not change at all); a call made without
a connection whose dial fails returns the dial error and changes nothing, and every other
call adds exactly one to `TxOkay` (no error returned, as when no write fails) or to
`TxError` (write error returned, as when the first write fails); so
`TxOkay + TxError + Droped` grows by the number of calls that get past `Connect`. -/
theorem SendMsg_counters (this : TcpClient) (calls : List (Option Conn × List Byte))
    (dial : Option Conn) (data : List Byte)
    (hcb : ∀ f, this.onConnected = some f → keepsCounters f) :
    (∃ errs this', this.sendAll calls = some (errs, this') ∧
        errs.length = calls.length ∧ this'.onConnected = this.onConnected ∧
        this.TxOkay ≤ this'.TxOkay ∧ this.TxError ≤ this'.TxError ∧
        this'.RxOkay = this.RxOkay ∧ this'.Droped = this.Droped ∧
        this'.TxOkay + this'.TxError + this'.Droped =
          this.TxOkay + this.TxError + this.Droped + attempts this.conn.isSome calls ∧
        this'.TxOkay = this.TxOkay + errs.count none ∧
        errs.count (some Err.dial) + attempts this.conn.isSome calls = calls.length) ∧
    (this.conn = none → dial = none → this.SendMsg dial data = some (some Err.dial, this)) ∧
    (this.conn.isSome = true ∨ dial.isSome = true →
      ∃ err this', this.SendMsg dial data = some (err, this') ∧
        (err = none ∨ err = some Err.io) ∧
        this'.conn.isSome = true ∧ this'.onConnected = this.onConnected ∧
        this'.RxOkay = this.RxOkay ∧ this'.Droped = this.Droped ∧
        this'.TxOkay = this.TxOkay + (if err = none then 1 else 0) ∧
        this'.TxError = this.TxError + (if err = none then 0 else 1) ∧
        (∀ c, (this.Connect dial).2.conn = some c → noFail c.wscript = true → err = none) ∧
        (∀ c r, (this.Connect dial).2.conn = some c → c.wscript = none :: r →
          err = some Err.io)) :=
  ⟨TcpClient_sendAll_counters calls this hcb, TcpClient_SendMsg_step this dial data hcb⟩

theorem SendMsg_counters_witness :
    (∃ errs this', (NewTcpClient "sw:10002" 0 0).sendAll
          [(none, [1]),
           (some { raddr := "sw:10002", rx := [], tx := [], rscript := [],
                   wscript := [some 2, none] }, [1, 2]),
           (none, [3])] = some (errs, this') ∧
        errs.length = 3 ∧ this'.onConnected = (NewTcpClient "sw:10002" 0 0).onConnected ∧
        (NewTcpClient "sw:10002" 0 0).TxOkay ≤ this'.TxOkay ∧
        (NewTcpClient "sw:10002" 0 0).TxError ≤ this'.TxError ∧
        this'.RxOkay = (NewTcpClient "sw:10002" 0 0).RxOkay ∧
        this'.Droped = (NewTcpClient "sw:10002" 0 0).Droped ∧
        this'.TxOkay + this'.TxError + this'.Droped =
          (NewTcpClient "sw:10002" 0 0).TxOkay + (NewTcpClient "sw:10002" 0 0).TxError +
            (NewTcpClient "sw:10002" 0 0).Droped +
            attempts (NewTcpClient "sw:10002" 0 0).conn.isSome
              [(none, [1]),
               (some { raddr := "sw:10002", rx := [], tx := [], rscript := [],
                       wscript := [some 2, none] }, [1, 2]),
               (none, [3])] ∧
        this'.TxOkay = (NewTcpClient "sw:10002" 0 0).TxOkay + errs.count none ∧
        errs.count (some Err.dial) +
            attempts (NewTcpClient "sw:10002" 0 0).conn.isSome
              [(none, [1]),
               (some { raddr := "sw:10002", rx := [], tx := [], rscript := [],
                       wscript := [some 2, none] }, [1, 2]),
               (none, [3])] = 3) ∧
    (NewTcpClient "sw:10002" 0 0).SendMsg none [1, 2, 3] =
      some (some Err.dial, NewTcpClient "sw:10002" 0 0) :=
  ⟨(SendMsg_counters (NewTcpClient "sw:10002" 0 0)
      [(none, [1]),
       (some { raddr := "sw:10002", rx := [], tx := [], rscript := [],
               wscript := [some 2, none] }, [1, 2]),
       (none, [3])] none [1, 2, 3] (fun _ hf => nomatch hf)).1,
   (SendMsg_counters (NewTcpClient "sw:10002" 0 0) [] none [1, 2, 3]
      (fun _ hf => nomatch hf)).2.1 rfl rfl⟩

/-- C10 fails as stated: a `SendMsg` call on a fresh client whose connect fails returns
the dial error and leaves `TxOkay`, `TxError` and `Droped` at zero, so the sum does not
grow by one for that outbound attempt. -/
theorem SendMsg_connect_fails :
    ((NewTcpClient "sw:10002" 0 0).SendMsg none [1, 2, 3]).map
        (fun r => (r.1, r.2.TxOkay, r.2.TxError, r.2.Droped)) =
      some (some Err.dial, 0, 0, 0) ∧
    (0 : Nat) + 0 + 0 ≠
      (NewTcpClient "sw:10002" 0 0).TxOkay + (NewTcpClient "sw:10002" 0 0).TxError +
        (NewTcpClient "sw:10002" 0 0).Droped + 1 := by
  refine ⟨by decide, by decide⟩

/-! ## C11: Close -/

/-- C11, as the code has it: for every client, calling `Close` twice leaves the client in
the same state as calling `Close` once, and in that state the client has no connection
(`IsOk()` is false). -/
theorem Close_idempotent (this : TcpClient) :
    this.Close.Close = this.Close ∧ this.Close.conn = none ∧ this.Close.IsOk = false := by
  unfold TcpClient.Close TcpClient.IsOk
  cases hc : this.conn with
  | none => simp [hc]
  | some c => simp

/-- C11 fails as stated: a client made from an open connection has status `CL_INIT` (0)
and one that has connected has status `CL_CONNECTED` (1); `Close` drops the connection in
both and leaves the status as it was, not `CL_CLOSED` (0xff). -/
theorem Close_keeps_Status :
    (NewTcpClientFromConn
        { raddr := "pt", rx := [], tx := [], rscript := [], wscript := [] } 0 0).Close.conn
      = none ∧
    (NewTcpClientFromConn
        { raddr := "pt", rx := [], tx := [], rscript := [], wscript := [] } 0 0).Close.Status
      = CL_INIT ∧
    ((NewTcpClient "sw:10002" 0 0).Connect
        (some { raddr := "sw:10002", rx := [], tx := [], rscript := [], wscript := [] })).2.Close.Status
      = CL_CONNECTED ∧
    CL_INIT ≠ CL_CLOSED ∧ CL_CONNECTED ≠ CL_CLOSED := by
  refine ⟨rfl, rfl, rfl, by decide, by decide⟩

/-! ## C12: the ring of the logger -/

theorem Save_Errors_room (l : _Log) (level m date : String) (h : l.Errors.length < 1024) :
    (l.Save level m date).Errors = l.Errors ++ [{ Level := level, Date := date, Message := m }] := by
  have h' : ¬ (l.Errors.length ≥ 1024) := by omega
  unfold _Log.Save
  cases hf : l.FileLog <;> simp [h']

theorem Save_Errors_full (l : _Log) (level m date : String) (h : 1024 ≤ l.Errors.length) :
    (l.Save level m date).Errors =
      l.Errors.dropLast ++ [{ Level := level, Date := date, Message := m }] := by
  have hne : l.Errors ≠ [] := by
    intro h0
    rw [h0] at h
    simp at h
  obtain ⟨x, hx⟩ : ∃ x, l.Errors.getLast? = some x := by
    cases hg : l.Errors.getLast? with
    | none => exact absurd (List.getLast?_eq_none_iff.mp hg) hne
    | some x => exact ⟨x, rfl⟩
  unfold _Log.Save
  cases hf : l.FileLog <;> simp [h, hx]

theorem Save_length_le (l : _Log) (level m date : String) (h : l.Errors.length ≤ 1024) :
    (l.Save level m date).Errors.length ≤ 1024 := by
  by_cases hf : l.Errors.length < 1024
  · rw [Save_Errors_room l level m date hf]
    simp
    omega
  · rw [Save_Errors_full l level m date (by omega)]
    simp
    omega

theorem saveAll_length_le (es : List Message) :
    ∀ l : _Log, l.Errors.length ≤ 1024 → (l.saveAll es).Errors.length ≤ 1024 := by
  induction es with
  | nil => intro l h; exact h
  | cons e es ih =>
    intro l h
    exact ih _ (Save_length_le l _ _ _ h)

theorem saveAll_room (es : List Message) :
    ∀ l : _Log, l.Errors.length + es.length ≤ 1024 → (l.saveAll es).Errors = l.Errors ++ es := by
  induction es with
  | nil => intro l _; simp [_Log.saveAll]
  | cons e es ih =>
    intro l h
    simp only [List.length_cons] at h
    have h1 := Save_Errors_room l e.Level e.Message e.Date (by omega)
    simp only [_Log.saveAll]
    rw [ih _ (by rw [h1]; simp; omega), h1]
    simp

theorem saveAll_append (a b : List Message) :
    ∀ l : _Log, l.saveAll (a ++ b) = (l.saveAll a).saveAll b := by
  induction a with
  | nil => intro l; rfl
  | cons e a ih => intro l; exact ih _

theorem saveAll_singleton (l : _Log) (e : Message) :
    l.saveAll [e] = l.Save e.Level e.Message e.Date := rfl

/-- C12 against the code: a ring that starts empty never holds more than 1024 entries, as
the claim says; but a `Save` made while the ring holds 1024 entries discards the NEWEST
entry, not the oldest.  After saving `old`, then `mid` 1023 times, then `new` (1025 saves)
the ring is `old`, 1022 times `mid`, `new`: the oldest entry is still there and it is not
the 1024 most recently saved messages (1023 times `mid`, then `new`). -/
theorem Save_discards_newest :
    (∀ es : List Message, (Logger.saveAll es).Errors.length ≤ 1024) ∧
    (Logger.saveAll
        ([{ Level := "ERROR", Date := "d0", Message := "old" }] ++
          List.replicate 1023 { Level := "ERROR", Date := "d1", Message := "mid" } ++
          [{ Level := "ERROR", Date := "d2", Message := "new" }])).Errors =
      [{ Level := "ERROR", Date := "d0", Message := "old" }] ++
        List.replicate 1022 { Level := "ERROR", Date := "d1", Message := "mid" } ++
        [{ Level := "ERROR", Date := "d2", Message := "new" }] ∧
    ([{ Level := "ERROR", Date := "d0", Message := "old" }] ++
        List.replicate 1022 { Level := "ERROR", Date := "d1", Message := "mid" } ++
        [{ Level := "ERROR", Date := "d2", Message := "new" }] : List Message) ≠
      List.replicate 1023 { Level := "ERROR", Date := "d1", Message := "mid" } ++
        [{ Level := "ERROR", Date := "d2", Message := "new" }] := by
  refine ⟨fun es => saveAll_length_le es Logger (by simp [Logger]), ?_, ?_⟩
  · rw [saveAll_append]
    have hfill := saveAll_room
      ([{ Level := "ERROR", Date := "d0", Message := "old" }] ++
        List.replicate 1023 { Level := "ERROR", Date := "d1", Message := "mid" })
      Logger
      (by simp only [Logger, List.length_nil, List.length_append, List.length_singleton,
            List.length_replicate]
          omega)
    have hE : Logger.Errors = [] := rfl
    rw [hE, List.nil_append] at hfill
    rw [saveAll_singleton]
    rw [Save_Errors_full _ _ _ _
      (by rw [hfill]
          simp only [List.length_append, List.length_singleton, List.length_replicate]
          omega), hfill]
    have hrep : List.replicate 1023 ({ Level := "ERROR", Date := "d1", Message := "mid" } : Message)
        = List.replicate 1022 { Level := "ERROR", Date := "d1", Message := "mid" } ++
          [{ Level := "ERROR", Date := "d1", Message := "mid" }] :=
      List.replicate_succ' 1022 _
    rw [hrep, ← List.append_assoc, List.dropLast_concat]
  · intro h
    have hrep : List.replicate 1023 ({ Level := "ERROR", Date := "d1", Message := "mid" } : Message)
        = { Level := "ERROR", Date := "d1", Message := "mid" } ::
          List.replicate 1022 { Level := "ERROR", Date := "d1", Message := "mid" } :=
      List.replicate_succ _ 1022
    rw [hrep] at h
    have h0 := congrArg List.head? h
    simp only [List.cons_append, List.singleton_append, List.head?_cons, Option.some.injEq,
      Message.mk.injEq] at h0
    exact absurd h0.2.2 (by decide)

/-! ## C13: decoding is partial -/

theorem Conn_Read_bounds (c : Conn) (tmp : List Byte) :
    (c.Read tmp).2.1 ≤ tmp.length ∧ (c.Read tmp).1.length = tmp.length := by
  unfold Conn.Read popEv
  by_cases h0 : tmp.length = 0
  · simp [h0]
  · simp only [h0, if_false]
    cases c.rscript with
    | nil =>
      by_cases hr : c.rx.length = 0
      · simp [hr]
      · simp only [hr, if_false]
        exact ⟨by omega, copy_length _ _⟩
    | cons e r =>
      cases e with
      | none => simp
      | some k =>
        by_cases hr : c.rx.length = 0
        · simp [hr]
        · simp only [hr, if_false]
          exact ⟨by omega, copy_length _ _⟩

theorem StreamMessage_read_bounds (s : StreamMessage) (c : Conn) (tmp : List Byte) :
    (s.read c tmp).2.1 ≤ tmp.length ∧ (s.read c tmp).1.length = tmp.length := by
  have h := Conn_Read_bounds c tmp
  unfold StreamMessage.read
  simp only [Conn.SetReadDeadline, ite_self]
  rcases hr : c.Read tmp with ⟨t, n, e, c'⟩
  rw [hr] at h
  cases e with
  | none => exact h
  | some err => exact ⟨Nat.zero_le _, h.2⟩

theorem StreamMessage_readLoop_length (s : StreamMessage) :
    ∀ (fuel : Nat) (buf : List Byte) (offset left : Nat) (conn : Conn) (e : Option Err)
      (buf' : List Byte) (conn' : Conn), offset + left ≤ buf.length →
      s.readLoop fuel buf offset left conn = some (e, buf', conn') → buf'.length = buf.length := by
  intro fuel
  induction fuel with
  | zero =>
    intro buf offset left conn e buf' conn' _ h
    simp only [StreamMessage.readLoop] at h
    split at h
    · cases h
    · cases h
      rfl
  | succ fuel ih =>
    intro buf offset left conn e buf' conn' hol h
    rw [StreamMessage.readLoop] at h
    split at h
    · have hb := StreamMessage_read_bounds s conn (zeros left)
      rw [zeros_length] at hb
      rcases hr : s.read conn (zeros left) with ⟨t, n, er, c1⟩
      dsimp only at h
      rw [hr] at h hb
      simp only at hb
      cases er with
      | some err =>
        simp only at h
        cases h
        rfl
      | none =>
        simp only at h
        have := ih _ _ _ _ _ _ _
          (by rw [copyAt_length _ _ _ (by omega)]; omega) h
        rw [this, copyAt_length _ _ _ (by omega)]
    · cases h
      rfl

theorem StreamMessage_readFull_length (s : StreamMessage) (conn conn' : Option Conn)
    (buf buf' : List Byte) (e : Option Err)
    (h : s.readFull conn buf = some (e, buf', conn')) : buf'.length = buf.length := by
  unfold StreamMessage.readFull at h
  cases conn with
  | none =>
    cases h
    rfl
  | some c =>
    simp only at h
    cases hl : s.readLoop buf.length buf 0 buf.length c with
    | none => rw [hl] at h; cases h
    | some r =>
      obtain ⟨e1, b1, c1⟩ := r
      rw [hl] at h
      cases h
      exact StreamMessage_readLoop_length s _ _ _ _ _ _ _ _ (by omega) hl

theorem slice_some_length (buf tmp : List Byte) (lo hi : Nat) (h : slice buf lo hi = some tmp) :
    tmp.length = hi - lo := by
  unfold slice at h
  split at h
  · cases h
    simp [List.length_take]
    omega
  · cases h

theorem StreamMessage_Receive_min (s : StreamMessage) (conn conn' : Option Conn)
    (data data' : List Byte) (max min n : Int)
    (h : s.Receive conn data max min = some (n, none, data', conn')) : min ≤ n := by
  unfold StreamMessage.Receive at h
  dsimp only at h
  cases hmk : makeBytes (wrapInt ((GetHeaderLen : Int) + max)) with
  | none => rw [hmk] at h; cases h
  | some buf =>
    rw [hmk] at h
    simp only at h
    cases hh : slice buf 0 GetHeaderLen with
    | none => rw [hh] at h; cases h
    | some hd =>
      rw [hh] at h
      simp only at h
      cases hr1 : s.readFull conn hd with
      | none => rw [hr1] at h; cases h
      | some r1 =>
        obtain ⟨e1, h1, c1⟩ := r1
        rw [hr1] at h
        cases e1 with
        | some err => simp only at h; cases h
        | none =>
          simp only at h
          split at h
          · cases h
          · split at h
            · cases h
            · rename_i hsz
              cases hs2 : slice (copyAt buf 0 h1) GetHeaderLen
                  (GetHeaderLen + uint16 (h1.getD 2 0) (h1.getD 3 0)) with
              | none => rw [hs2] at h; cases h
              | some tmp =>
                rw [hs2] at h
                simp only at h
                have htl := slice_some_length _ _ _ _ hs2
                cases hr2 : s.readFull c1 tmp with
                | none => rw [hr2] at h; cases h
                | some r2 =>
                  obtain ⟨e2, t2, c2⟩ := r2
                  rw [hr2] at h
                  have ht2 := StreamMessage_readFull_length s _ _ _ _ _ hr2
                  cases e2 with
                  | some err => simp only at h; cases h
                  | none =>
                    simp only [Option.some.injEq, Prod.mk.injEq] at h
                    obtain ⟨hn, -⟩ := h
                    have hlen : (match s.block with
                        | some b => b.decryptInPlace t2
                        | none => t2).length = uint16 (h1.getD 2 0) (h1.getD 3 0) := by
                      cases s.block with
                      | none => simp only; omega
                      | some b =>
                        simp only [BlockCrypt.decryptInPlace, copy_length]
                        omega
                    rw [hlen] at hn
                    omega

theorem TcpClient_connRead_bounds (this : TcpClient) (tmp : List Byte)
    (r : List Byte × Nat × Option Err × TcpClient) (h : this.connRead tmp = some r) :
    r.2.2.2.minsize = this.minsize ∧ r.2.2.2.maxsize = this.maxsize := by
  unfold TcpClient.connRead at h
  cases hc : this.conn with
  | none => rw [hc] at h; cases h
  | some c =>
    rw [hc] at h
    cases h
    exact ⟨rfl, rfl⟩

theorem TcpClient_recvLoop_bounds :
    ∀ (fuel : Nat) (buf : List Byte) (offset left : Nat) (this this' : TcpClient)
      (e : Option Err) (buf' : List Byte),
      TcpClient.recvLoop fuel buf offset left this = some (e, buf', this') →
      this'.minsize = this.minsize ∧ this'.maxsize = this.maxsize := by
  intro fuel
  induction fuel with
  | zero =>
    intro buf offset left this this' e buf' h
    simp only [TcpClient.recvLoop] at h
    split at h
    · cases h
    · cases h
      exact ⟨rfl, rfl⟩
  | succ fuel ih =>
    intro buf offset left this this' e buf' h
    rw [TcpClient.recvLoop] at h
    split at h
    · dsimp only at h
      cases hr : this.connRead (zeros left) with
      | none => rw [hr] at h; cases h
      | some r =>
      have hb := TcpClient_connRead_bounds this (zeros left) r hr
      obtain ⟨t, n, er, c1⟩ := r
      rw [hr] at h
      simp only at hb
      cases er with
      | some err =>
        simp only at h
        cases h
        exact hb
      | none =>
        simp only at h
        obtain ⟨h1, h2⟩ := ih _ _ _ _ _ _ _ h
        exact ⟨h1.trans hb.1, h2.trans hb.2⟩
    · cases h
      exact ⟨rfl, rfl⟩

theorem TcpClient_RecvMsg_min (this this' : TcpClient) (data data' : List Byte) (n : Int)
    (h : this.RecvMsg data = some (n, none, data', this')) : this.minsize ≤ n := by
  unfold TcpClient.RecvMsg at h
  dsimp only at h
  split at h
  · cases h
  · cases hr1 : this.recvn (zeros HSIZE) with
    | none => rw [hr1] at h; cases h
    | some r1 =>
      obtain ⟨e1, h1, c1⟩ := r1
      rw [hr1] at h
      cases e1 with
      | some err => simp only at h; cases h
      | none =>
        simp only at h
        split at h
        · cases h
        · split at h
          · cases h
          · rename_i hsz
            cases hr2 : c1.recvn (zeros (uint16 (h1.getD 2 0) (h1.getD 3 0))) with
            | none => rw [hr2] at h; cases h
            | some r2 =>
              obtain ⟨e2, t2, c2⟩ := r2
              rw [hr2] at h
              cases e2 with
              | some err => simp only at h; cases h
              | none =>
                simp only [Option.some.injEq, Prod.mk.injEq] at h
                obtain ⟨hn, -, -⟩ := h
                have hm := (TcpClient_recvLoop_bounds _ _ _ _ _ _ _ _ hr1).1
                omega

/-- C13: `NewFrameMessage` returns for every payload that is not control (the frame is the
payload) and for every control payload of at least 12 bytes, for which the action is the
five bytes `rawData[6:11]` and the params are `rawData[12:]`; for a payload of 6 to 11
bytes whose first six bytes are zero it does not return (a slice is out of range).  Both
`StreamMessage.Receive(max, min)` and `TcpClient.RecvMsg` accept only sizes of at least
their min bound, so decoding returns on every payload accepted with a min bound of at
least 12. -/
theorem Decode_total (data buf buf' : List Byte) (s : StreamMessage) (conn conn' : Option Conn)
    (this this' : TcpClient) (max min n : Int) :
    (IsControl data = false →
      NewFrameMessage data =
        some { control := false, action := [], params := [], frame := data, rawData := data }) ∧
    (IsControl data = true → 12 ≤ data.length →
      ∃ m, NewFrameMessage data = some m ∧ m.IsControl = true ∧
        m.action = (data.take 11).drop 6 ∧ m.action.length = 5 ∧ m.params = data.drop 12) ∧
    (6 ≤ data.length → data.length ≤ 11 → (∀ i, i < 6 → data[i]? = some 0) →
      NewFrameMessage data = none) ∧
    (12 ≤ min → min ≤ data.length → ∃ m, NewFrameMessage data = some m) ∧
    (s.Receive conn buf max min = some (n, none, buf', conn') → min ≤ n) ∧
    (this.RecvMsg buf = some (n, none, buf', this') → this.minsize ≤ n) := by
  refine ⟨NewFrameMessage_data data, ?_, ?_, ?_, StreamMessage_Receive_min s conn conn' buf buf' max min n,
    TcpClient_RecvMsg_min this this' buf buf' n⟩
  · intro hc h12
    refine ⟨_, NewFrameMessage_control data hc h12, rfl, rfl, ?_, rfl⟩
    simp [List.length_take]
    omega
  · intro h6 h11 hz
    exact NewFrameMessage_short data ((IsControl_eq_true data).mpr ⟨h6, hz⟩) (by omega)
  · intro hmin hlen
    have h12 : 12 ≤ data.length := by omega
    cases hc : IsControl data with
    | false => exact ⟨_, NewFrameMessage_data data hc⟩
    | true => exact ⟨_, NewFrameMessage_control data hc h12⟩

theorem Decode_total_witness :
    (∃ m, NewFrameMessage [0, 0, 0, 0, 0, 0, 108, 111, 103, 105, 61, 32, 123, 125] = some m ∧
      m.IsControl = true ∧
      m.action =
        (([0, 0, 0, 0, 0, 0, 108, 111, 103, 105, 61, 32, 123, 125] : List Byte).take 11).drop 6 ∧
      m.action.length = 5 ∧
      m.params = ([0, 0, 0, 0, 0, 0, 108, 111, 103, 105, 61, 32, 123, 125] : List Byte).drop 12) ∧
    NewFrameMessage [0, 0, 0, 0, 0, 0, 108, 111, 103, 105, 61] = none ∧
    (∃ m, NewFrameMessage [1, 2, 3, 4, 5, 6, 7, 8, 9, 10, 11, 12] = some m) :=
  ⟨(Decode_total [0, 0, 0, 0, 0, 0, 108, 111, 103, 105, 61, 32, 123, 125] [] []
      { timeout := 0, block := none } none none (NewTcpClient "a" 0 0) (NewTcpClient "a" 0 0)
      1514 12 12).2.1 (by decide) (by decide),
   (Decode_total [0, 0, 0, 0, 0, 0, 108, 111, 103, 105, 61] [] []
      { timeout := 0, block := none } none none (NewTcpClient "a" 0 0) (NewTcpClient "a" 0 0)
      1514 12 12).2.2.1 (by decide) (by decide) (by decide),
   (Decode_total [1, 2, 3, 4, 5, 6, 7, 8, 9, 10, 11, 12] [] []
      { timeout := 0, block := none } none none (NewTcpClient "a" 0 0) (NewTcpClient "a" 0 0)
      1514 12 12).2.2.2.1 (by decide) (by decide)⟩

/-! ## C14: Start on a switch that looks running -/

/-- C14: whenever the bridge map is not nil or the http server is set, `Start` returns the
"already running" error, leaves the switch as it was (`Initialize` has not run) and starts
nothing; in particular `Start` on the switch returned by `NewVSwitch(c)` returns that error
and leaves the hook list empty, because `NewVSwitch` allocates the bridge map. -/
theorem Start_already_running {W : Type} (v : VSwitch W) (mk : AppCtors W) (c : VSwitchConf)
    (now : Int) (h : v.bridge.isSome = true ∨ v.http.isSome = true) :
    v.Start mk = some (some Err.alreadyRunning, v, []) ∧
    (NewVSwitch c now : VSwitch W).bridge.isSome = true ∧
    (NewVSwitch c now : VSwitch W).Start mk =
      some (some Err.alreadyRunning, NewVSwitch c now, []) ∧
    ∀ err v' started, (NewVSwitch c now : VSwitch W).Start mk = some (err, v', started) →
      err = some Err.alreadyRunning ∧ v'.hooks = [] ∧ started = [] := by
  have hnew : (NewVSwitch c now : VSwitch W).Start mk =
      some (some Err.alreadyRunning, NewVSwitch c now, []) := by
    simp [VSwitch.Start, NewVSwitch]
  refine ⟨?_, rfl, hnew, ?_⟩
  · unfold VSwitch.Start
    rw [if_pos h]
  · intro err v' started hs
    rw [hnew] at hs
    simp only [Option.some.injEq, Prod.mk.injEq] at hs
    obtain ⟨h1, h2, h3⟩ := hs
    subst h1 h2 h3
    exact ⟨rfl, rfl, rfl⟩

theorem Start_already_running_witness :
    (NewVSwitch exampleConf 0 : VSwitch Nat).Start exampleCtors =
      some (some Err.alreadyRunning, NewVSwitch exampleConf 0, []) ∧
    (NewVSwitch exampleConf 0 : VSwitch Nat).bridge.isSome = true ∧
    (NewVSwitch exampleConf 0 : VSwitch Nat).Start exampleCtors =
      some (some Err.alreadyRunning, NewVSwitch exampleConf 0, []) ∧
    ∀ err v' started,
      (NewVSwitch exampleConf 0 : VSwitch Nat).Start exampleCtors = some (err, v', started) →
      err = some Err.alreadyRunning ∧ v'.hooks = [] ∧ started = [] :=
  Start_already_running (NewVSwitch exampleConf 0) exampleCtors exampleConf 0 (Or.inl rfl)

end Openlan
